import Mathlib

set_option autoImplicit false

/-!
Verification of the Looproom playback-synchronization and recommendation-scoring
engines (`backend/app/services/playback.py`, `backend/app/services/recommendation.py`
and their routers), as a shallow embedding.

Conventions of the embedding:
* timestamps are integer milliseconds (`Int`); Python `datetime` subtraction,
  `total_seconds() * 1000` and the `max(..., 0)` clamp become `Int` arithmetic;
* string primary keys become `Nat` identifiers (they are nonempty UUID strings
  in the source, so Python truthiness of an id is `Option.isSome` here);
* one room is modelled at a time: every source query filtered by `room_id`
  becomes a query over that room's own collections;
* SQLAlchemy rows become structures; the history table of a room is kept as a
  list in reverse insertion order (newest first); every read of it in the
  source goes through `ORDER BY played_at DESC`, and `(room_id, played_at)` is
  unique by table constraint, so under distinct timestamps this list order is
  exactly the order the source queries observe;
* Python floats become real numbers with exact arithmetic; `round(x, 4)`
  becomes decimal round-half-to-even (`rhe`).
-/

namespace Looproom

/-- `Track` row: the mutable counters touched by the playback state machine
(`play_count`, `last_played_at`; models.py `Track`). -/
structure TrackRec where
  playCount : Nat
  lastPlayedAt : Option Int
  deriving DecidableEq, Repr

/-- `PlaybackState` row (models.py): per-room playback fields. `room_id` is
implicit (single-room model), `id`/timestamps of the row are irrelevant to the
claims. -/
structure PlaybackState where
  track_id : Nat
  start_ts : Int
  anchor_server_ts : Int
  offset_ms : Int
  is_paused : Bool
  listeners : Nat
  deriving DecidableEq, Repr

/-- `RoomTrackHistory` row (models.py): one span of a track being live in the
room. -/
structure HistorySpan where
  track_id : Nat
  played_at : Int
  ended_at : Option Int
  was_skipped : Bool := false
  deriving DecidableEq, Repr

/-- Active membership row of the room (models.py `RoomMembership`; only the
fields the listener accounting reads). -/
structure Member where
  user_id : Nat
  left_at : Option Int
  deriving DecidableEq, Repr

/-- The per-room state the playback engine mutates: the optional
`PlaybackState` row, the history table (newest first), the room's
`live_track_id` column, the membership rows, and the `Track` counters store. -/
structure RoomState where
  playback : Option PlaybackState
  history : List HistorySpan
  live_track_id : Option Nat
  members : List Member
  tracks : Nat → TrackRec

/-- Greatest `played_at` among the room's history rows for the given track
(the key of the `ORDER BY played_at DESC` / first-row query in
`_close_active_history`). -/
def maxPlayedAt : List HistorySpan → Nat → Option Int
  | [], _ => none
  | sp :: rest, t =>
    let m := maxPlayedAt rest t
    if sp.track_id = t then
      some (match m with
        | none => sp.played_at
        | some v => max sp.played_at v)
    else m

/-- Close the first span in the list having the given track and `played_at`,
provided it is still open (this is the row `_close_active_history` selects:
under the `(room_id, played_at)` uniqueness constraint it is the unique
track-row of greatest `played_at`). -/
def closeFirstAt : List HistorySpan → Nat → Int → Int → List HistorySpan
  | [], _, _, _ => []
  | sp :: rest, t, m, e =>
    if sp.track_id = t ∧ sp.played_at = m then
      (if sp.ended_at = none then { sp with ended_at := some e } :: rest
       else sp :: rest)
    else sp :: closeFirstAt rest t m e

/-- `_close_active_history(session, room_id, track_id, ended_at)`
(services/playback.py): fetch the newest history row of `track_id` for the
room; if it exists and is open, set its `ended_at`. -/
def close_active_history (h : List HistorySpan) (track_id : Nat) (ended_at : Int) :
    List HistorySpan :=
  match maxPlayedAt h track_id with
  | none => h
  | some m => closeFirstAt h track_id m ended_at

/-- `_create_history(session, room_id, track_id, played_at)`
(services/playback.py): insert a fresh open span (list is newest first). -/
def create_history (h : List HistorySpan) (track_id : Nat) (played_at : Int) :
    List HistorySpan :=
  { track_id := track_id, played_at := played_at, ended_at := none } :: h

/-- `upsert_playback_state(session, room, track, start_ts, offset_ms,
is_paused, listeners)` (services/playback.py lines 12-62), at server time
`now` (= `datetime.utcnow()`). -/
def upsert_playback_state (s : RoomState) (track_id : Nat)
    (start_ts : Option Int) (offset_ms : Int) (is_paused : Bool)
    (listeners : Option Nat) (now : Int) : RoomState :=
  let start := start_ts.getD now
  let previous_track_id : Option Nat := s.playback.map (·.track_id)
  -- `track_changed = (previous_track_id != track.id)`; spelt out at each use below
  let state : PlaybackState :=
    match s.playback with
    | none =>
      { track_id := track_id, start_ts := start, anchor_server_ts := now,
        offset_ms := offset_ms, is_paused := is_paused,
        listeners := listeners.getD 0 }
    | some st =>
      { st with
        track_id := track_id,
        start_ts := start,
        offset_ms := offset_ms,
        is_paused := is_paused,
        anchor_server_ts := now,
        listeners := listeners.getD st.listeners }
  let hist1 :=
    match previous_track_id with
    | some prev =>
      if prev ≠ track_id then close_active_history s.history prev now
      else s.history
    | none => s.history
  let hist2 :=
    if previous_track_id ≠ some track_id then create_history hist1 track_id now
    else hist1
  let tr := s.tracks track_id
  let tr' :=
    if previous_track_id ≠ some track_id then
      { tr with playCount := tr.playCount + 1, lastPlayedAt := some now }
    else
      { tr with
        lastPlayedAt := match tr.lastPlayedAt with
          | some v => some v
          | none => some now }
  { s with
    playback := some state,
    history := hist2,
    tracks := fun i => if i = track_id then tr' else s.tracks i }

/-- `update_room_listener_count(session, room)` (services/playback.py lines
87-101): recount memberships with no `left_at`, store the count into the
playback state if one exists, return the count. -/
def update_room_listener_count (s : RoomState) : RoomState × Nat :=
  let active_count := (s.members.filter (fun m => m.left_at = none)).length
  match s.playback with
  | some st =>
    ({ s with playback := some { st with listeners := active_count } }, active_count)
  | none => (s, active_count)

/-- `resume_room_playback(session, room, listeners)` (services/playback.py
lines 104-130) at server time `now`. The `state.track is None` guard of the
source cannot fire here: `track_id` is a non-nullable foreign key, so the
track row always exists (`tracks` is total). -/
def resume_room_playback (s : RoomState) (listeners : Option Nat) (now : Int) :
    RoomState :=
  match s.playback with
  | none => s
  | some st =>
    let st1 :=
      match listeners with
      | some l => if l ≠ st.listeners then { st with listeners := l } else st
      | none => st
    let s1 := { s with playback := some st1 }
    if st1.is_paused = false then s1
    else
      let offset := st1.offset_ms
      let start_ts := if offset > 0 then now - offset else now
      upsert_playback_state s1 st1.track_id (some start_ts) offset false
        (some (listeners.getD st1.listeners)) now

/-- `pause_room_playback(session, room, listeners)` (services/playback.py
lines 133-159) at server time `now`. `state.anchor_server_ts` and
`state.start_ts` are non-nullable columns, so the `or now` / `or now - ...`
fallbacks of the source are the identity here. -/
def pause_room_playback (s : RoomState) (listeners : Option Nat) (now : Int) :
    RoomState :=
  match s.playback with
  | none => s
  | some st =>
    if st.is_paused then
      match listeners with
      | some l =>
        if l ≠ st.listeners then { s with playback := some { st with listeners := l } }
        else s
      | none => s
    else
      let anchor := st.anchor_server_ts
      let elapsed_ms := max (now - anchor) 0
      let offset := st.offset_ms + elapsed_ms
      upsert_playback_state s st.track_id (some st.start_ts) offset true
        (some (listeners.getD st.listeners)) now

/-- `PUT /rooms/{id}/playback` = `set_playback` (routers/playback.py lines
24-51): upsert the playback state, then point the room's `live_track_id` at
the track. Room/track existence checks are the caller's 404s; the claim about
this operation conditions on success, so the successful path is modelled. -/
def set_playback (s : RoomState) (track_id : Nat) (start_ts : Option Int)
    (offset_ms : Int) (is_paused : Bool) (listeners : Option Nat) (now : Int) :
    RoomState :=
  let s1 := upsert_playback_state s track_id start_ts offset_ms is_paused listeners now
  { s1 with live_track_id := some track_id }

/-- Membership rows after a join: revive the row (clear `left_at`) if present,
else insert a fresh one (routers/rooms.py lines 91-109). -/
def joinMembers (ms : List Member) (user_id : Nat) : List Member :=
  if (ms.find? (fun m => m.user_id = user_id)).isSome then
    ms.map (fun m => if m.user_id = user_id then { m with left_at := none } else m)
  else
    ms ++ [{ user_id := user_id, left_at := none }]

/-- Membership rows after a leave: stamp `left_at = now` on the user's row. -/
def leaveMembers (ms : List Member) (user_id : Nat) (now : Int) : List Member :=
  ms.map (fun m => if m.user_id = user_id then { m with left_at := some now } else m)

/-- `POST /rooms/{id}/join` = `join_room` (routers/rooms.py lines 77-116):
revive or insert the membership row, recount listeners, and resume playback
whenever the count is positive. -/
def join_room (s : RoomState) (user_id : Nat) (now : Int) : RoomState :=
  let s1 := { s with members := joinMembers s.members user_id }
  let (s2, listeners) := update_room_listener_count s1
  if listeners > 0 then resume_room_playback s2 (some listeners) now else s2

/-- `POST /rooms/{id}/leave` = `leave_room` (routers/rooms.py lines 119-147):
stamp `left_at`, recount, pause on zero listeners and resume otherwise.
Returns `none` for the membership-not-found 404. -/
def leave_room (s : RoomState) (user_id : Nat) (now : Int) : Option RoomState :=
  if (s.members.find? (fun m => m.user_id = user_id)).isSome then
    let s1 := { s with members := leaveMembers s.members user_id now }
    let (s2, listeners) := update_room_listener_count s1
    some (if listeners = 0 then pause_room_playback s2 (some listeners) now
          else resume_room_playback s2 (some listeners) now)
  else none

/-- One externally triggered playback transition of a room (spec §4.2). -/
inductive Op where
  | setTrack (track_id : Nat) (start_ts : Option Int) (offset_ms : Int)
      (is_paused : Bool) (listeners : Option Nat)
  | resume (listeners : Option Nat)
  | pause (listeners : Option Nat)
  deriving DecidableEq, Repr

/-- Apply one operation at server time `now`. -/
def stepOp (s : RoomState) (now : Int) : Op → RoomState
  | .setTrack track_id start_ts offset_ms is_paused listeners =>
    upsert_playback_state s track_id start_ts offset_ms is_paused listeners now
  | .resume listeners => resume_room_playback s listeners now
  | .pause listeners => pause_room_playback s listeners now

/-- Run a timed sequence of operations. -/
def run (s : RoomState) : List (Int × Op) → RoomState
  | [] => s
  | (now, op) :: rest => run (stepOp s now op) rest

/-- Number of open (`ended_at = null`) history spans of the room. -/
def openCount (h : List HistorySpan) : Nat :=
  (h.filter (fun sp => sp.ended_at = none)).length

/-! ### The single-open-span invariant (spec §3, §8; claim C1) -/

/-- Reachability invariant of the history ledger: `played_at` strictly
decreases along the newest-first history list, every `played_at` is below the
bound `b`, and any open span is the newest row and carries the playback
state's current track. -/
def PlaybackInv (s : RoomState) (b : Int) : Prop :=
  List.Chain' (· > ·) (s.history.map (·.played_at)) ∧
  (∀ sp ∈ s.history, sp.played_at < b) ∧
  (∀ sp ∈ s.history, sp.ended_at = none →
    s.history.head? = some sp ∧ s.playback.map (·.track_id) = some sp.track_id)

theorem PlaybackInv.mono {s : RoomState} {b b' : Int} (h : PlaybackInv s b)
    (hb : b ≤ b') : PlaybackInv s b' :=
  ⟨h.1, fun sp hsp => lt_of_lt_of_le (h.2.1 sp hsp) hb, h.2.2⟩

theorem maxPlayedAt_mem {h : List HistorySpan} {t : Nat} {v : Int}
    (hv : maxPlayedAt h t = some v) :
    ∃ sp ∈ h, sp.track_id = t ∧ sp.played_at = v := by
  induction h generalizing v with
  | nil => simp [maxPlayedAt] at hv
  | cons sp rest ih =>
    simp only [maxPlayedAt] at hv
    by_cases hsp : sp.track_id = t
    · rw [if_pos hsp] at hv
      cases hm : maxPlayedAt rest t with
      | none =>
        rw [hm] at hv
        exact ⟨sp, List.mem_cons_self sp rest, hsp, (Option.some_inj.mp hv)⟩
      | some w =>
        rw [hm] at hv
        have hv' : max sp.played_at w = v := Option.some_inj.mp hv
        rcases le_total w sp.played_at with hle | hle
        · exact ⟨sp, List.mem_cons_self sp rest, hsp, by rw [← hv', max_eq_left hle]⟩
        · obtain ⟨x, hx, hxt, hxw⟩ := ih hm
          exact ⟨x, List.mem_cons_of_mem sp hx, hxt, by rw [hxw, ← hv', max_eq_right hle]⟩
    · rw [if_neg hsp] at hv
      obtain ⟨x, hx, hxt, hxw⟩ := ih hv
      exact ⟨x, List.mem_cons_of_mem sp hx, hxt, hxw⟩

theorem maxPlayedAt_head {sp : HistorySpan} {rest : List HistorySpan} {t : Nat}
    (hsp : sp.track_id = t) (hlt : ∀ x ∈ rest, x.played_at < sp.played_at) :
    maxPlayedAt (sp :: rest) t = some sp.played_at := by
  simp only [maxPlayedAt, if_pos hsp]
  cases hm : maxPlayedAt rest t with
  | none => rfl
  | some w =>
    obtain ⟨x, hx, -, hxw⟩ := maxPlayedAt_mem hm
    have hwlt : w < sp.played_at := hxw ▸ hlt x hx
    show some (max sp.played_at w) = some sp.played_at
    rw [max_eq_left hwlt.le]

theorem closeFirstAt_map_played (h : List HistorySpan) (t : Nat) (m e : Int) :
    (closeFirstAt h t m e).map (·.played_at) = h.map (·.played_at) := by
  induction h with
  | nil => rfl
  | cons sp rest ih =>
    simp only [closeFirstAt]
    by_cases hc : sp.track_id = t ∧ sp.played_at = m
    · rw [if_pos hc]
      by_cases he : sp.ended_at = none
      · rw [if_pos he]; rfl
      · rw [if_neg he]
    · rw [if_neg hc]; simp only [List.map_cons, ih]

theorem closeFirstAt_mem {sp' : HistorySpan} {h : List HistorySpan} {t : Nat}
    {m e : Int} (hm : sp' ∈ closeFirstAt h t m e) :
    sp' ∈ h ∨ ∃ sp ∈ h, sp.track_id = t ∧ sp.played_at = m ∧ sp.ended_at = none ∧
      sp' = { sp with ended_at := some e } := by
  induction h with
  | nil => simp [closeFirstAt] at hm
  | cons sp rest ih =>
    simp only [closeFirstAt] at hm
    by_cases hc : sp.track_id = t ∧ sp.played_at = m
    · rw [if_pos hc] at hm
      by_cases he : sp.ended_at = none
      · rw [if_pos he] at hm
        rcases List.mem_cons.mp hm with h1 | h2
        · exact Or.inr ⟨sp, List.mem_cons_self sp rest, hc.1, hc.2, he, h1⟩
        · exact Or.inl (List.mem_cons_of_mem sp h2)
      · rw [if_neg he] at hm; exact Or.inl hm
    · rw [if_neg hc] at hm
      rcases List.mem_cons.mp hm with h1 | h2
      · exact Or.inl (h1 ▸ List.mem_cons_self sp rest)
      · rcases ih h2 with h3 | ⟨sp0, h4, h5⟩
        · exact Or.inl (List.mem_cons_of_mem sp h3)
        · exact Or.inr ⟨sp0, List.mem_cons_of_mem sp h4, h5⟩

theorem closeFirstAt_head_open {sp : HistorySpan} {rest : List HistorySpan}
    {t : Nat} {e : Int} (h1 : sp.track_id = t) (h2 : sp.ended_at = none) :
    closeFirstAt (sp :: rest) t sp.played_at e =
      { sp with ended_at := some e } :: rest := by
  unfold closeFirstAt
  rw [if_pos (And.intro h1 rfl), if_pos h2]

theorem close_active_history_map_played (h : List HistorySpan) (t : Nat) (e : Int) :
    (close_active_history h t e).map (·.played_at) = h.map (·.played_at) := by
  unfold close_active_history
  cases maxPlayedAt h t with
  | none => rfl
  | some m => exact closeFirstAt_map_played h t m e

theorem close_active_history_mem {sp' : HistorySpan} {h : List HistorySpan}
    {t : Nat} {e : Int} (hm : sp' ∈ close_active_history h t e) :
    sp' ∈ h ∨ ∃ sp ∈ h, sp.ended_at = none ∧ sp' = { sp with ended_at := some e } := by
  unfold close_active_history at hm
  cases hmx : maxPlayedAt h t with
  | none => rw [hmx] at hm; exact Or.inl hm
  | some m =>
    rw [hmx] at hm
    rcases closeFirstAt_mem hm with h1 | ⟨sp0, h2, -, -, hop, heq⟩
    · exact Or.inl h1
    · exact Or.inr ⟨sp0, h2, hop, heq⟩

theorem close_active_history_no_open {s : RoomState} {b : Int}
    {st : PlaybackState} (hInv : PlaybackInv s b) (hpb : s.playback = some st)
    (e : Int) :
    ∀ sp' ∈ close_active_history s.history st.track_id e, sp'.ended_at ≠ none := by
  obtain ⟨hchain, -, hopen⟩ := hInv
  intro sp' hmem hnone
  by_cases hex : ∃ sp ∈ s.history, sp.ended_at = none
  · obtain ⟨sp0, hsp0, hop0⟩ := hex
    obtain ⟨hhead, htr⟩ := hopen sp0 hsp0 hop0
    obtain ⟨rest, hh⟩ : ∃ rest, s.history = sp0 :: rest := by
      cases hhist : s.history with
      | nil => rw [hhist] at hhead; simp at hhead
      | cons a l =>
        rw [hhist] at hhead
        exact ⟨l, by rw [List.head?_cons, Option.some_inj] at hhead; rw [hhead]⟩
    have ht : sp0.track_id = st.track_id := by
      rw [hpb, Option.map_some'] at htr
      exact (Option.some_inj.mp htr).symm
    have hlt : ∀ x ∈ rest, x.played_at < sp0.played_at := by
      rw [hh, List.map_cons, List.chain'_iff_pairwise, List.pairwise_cons] at hchain
      intro x hx
      exact hchain.1 _ (List.mem_map_of_mem _ hx)
    have hmax : maxPlayedAt s.history st.track_id = some sp0.played_at := by
      rw [hh]; exact maxPlayedAt_head ht hlt
    have hclose : close_active_history s.history st.track_id e =
        { sp0 with ended_at := some e } :: rest := by
      simp only [close_active_history, hmax]
      rw [hh]
      exact closeFirstAt_head_open ht hop0
    rw [hclose] at hmem
    rcases List.mem_cons.mp hmem with h1 | h2
    · rw [h1] at hnone; simp at hnone
    · have hsp' := hopen sp' (by rw [hh]; exact List.mem_cons_of_mem _ h2) hnone
      have heq : sp' = sp0 := by
        rw [hh, List.head?_cons, Option.some_inj] at hsp'
        exact hsp'.1.symm
      exact absurd (hlt sp0 (heq ▸ h2)) (lt_irrefl _)
  · push_neg at hex
    rcases close_active_history_mem hmem with h1 | ⟨sp0, h2, hop, -⟩
    · exact hex sp' h1 hnone
    · exact hex sp0 h2 hop


/-! Characterizations of `upsert_playback_state` on each shape of input. -/

theorem upsert_frame (s : RoomState) (tid : Nat) (sts : Option Int) (off : Int)
    (p : Bool) (l : Option Nat) (now : Int) :
    (upsert_playback_state s tid sts off p l now).live_track_id = s.live_track_id ∧
    (upsert_playback_state s tid sts off p l now).members = s.members := by
  constructor <;> rfl

theorem upsert_playback_of_none {s : RoomState} (hpb : s.playback = none)
    (tid : Nat) (sts : Option Int) (off : Int) (p : Bool) (l : Option Nat)
    (now : Int) :
    (upsert_playback_state s tid sts off p l now).playback =
      some { track_id := tid,
             start_ts := sts.getD now,
             anchor_server_ts := now,
             offset_ms := off,
             is_paused := p,
             listeners := l.getD 0 } := by
  simp only [upsert_playback_state, hpb]

theorem upsert_playback_of_some {s : RoomState} {st : PlaybackState}
    (hpb : s.playback = some st) (tid : Nat) (sts : Option Int) (off : Int)
    (p : Bool) (l : Option Nat) (now : Int) :
    (upsert_playback_state s tid sts off p l now).playback =
      some { st with
             track_id := tid,
             start_ts := sts.getD now,
             offset_ms := off,
             is_paused := p,
             anchor_server_ts := now,
             listeners := l.getD st.listeners } := by
  simp only [upsert_playback_state, hpb]

theorem upsert_track_id (s : RoomState) (tid : Nat) (sts : Option Int)
    (off : Int) (p : Bool) (l : Option Nat) (now : Int) :
    (upsert_playback_state s tid sts off p l now).playback.map (·.track_id) =
      some tid := by
  rcases hpb : s.playback with _ | st
  · rw [upsert_playback_of_none hpb, Option.map_some']
  · rw [upsert_playback_of_some hpb, Option.map_some']

theorem upsert_history_of_none {s : RoomState} (hpb : s.playback = none)
    (tid : Nat) (sts : Option Int) (off : Int) (p : Bool) (l : Option Nat)
    (now : Int) :
    (upsert_playback_state s tid sts off p l now).history =
      create_history s.history tid now := by
  simp only [upsert_playback_state, hpb, Option.map_none']
  rw [if_pos (by simp)]

theorem upsert_history_same_track {s : RoomState} {st : PlaybackState}
    (hpb : s.playback = some st) {tid : Nat} (htid : st.track_id = tid)
    (sts : Option Int) (off : Int) (p : Bool) (l : Option Nat) (now : Int) :
    (upsert_playback_state s tid sts off p l now).history = s.history := by
  simp only [upsert_playback_state, hpb, Option.map_some']
  rw [if_neg (by simp [htid]), if_neg (by simp [htid])]

theorem upsert_history_changed {s : RoomState} {st : PlaybackState}
    (hpb : s.playback = some st) {tid : Nat} (htid : st.track_id ≠ tid)
    (sts : Option Int) (off : Int) (p : Bool) (l : Option Nat) (now : Int) :
    (upsert_playback_state s tid sts off p l now).history =
      create_history (close_active_history s.history st.track_id now) tid now := by
  simp only [upsert_playback_state, hpb, Option.map_some']
  rw [if_pos htid, if_pos (by simp [htid])]

theorem upsert_tracks_same_track {s : RoomState} {st : PlaybackState}
    (hpb : s.playback = some st) {tid : Nat} (htid : st.track_id = tid)
    (sts : Option Int) (off : Int) (p : Bool) (l : Option Nat) (now : Int) :
    (upsert_playback_state s tid sts off p l now).tracks = fun i =>
      if i = tid then
        { s.tracks tid with
          lastPlayedAt := match (s.tracks tid).lastPlayedAt with
            | some v => some v
            | none => some now }
      else s.tracks i := by
  simp only [upsert_playback_state, hpb, Option.map_some']
  rw [if_neg (by simp [htid])]

theorem upsert_tracks_changed {s : RoomState} {st : PlaybackState}
    (hpb : s.playback = some st) {tid : Nat} (htid : st.track_id ≠ tid)
    (sts : Option Int) (off : Int) (p : Bool) (l : Option Nat) (now : Int) :
    (upsert_playback_state s tid sts off p l now).tracks = fun i =>
      if i = tid then
        { s.tracks tid with
          playCount := (s.tracks tid).playCount + 1,
          lastPlayedAt := some now }
      else s.tracks i := by
  simp only [upsert_playback_state, hpb, Option.map_some']
  rw [if_pos (by simp [htid])]

/-- Helper: the head timestamp of the history (if any) is below any bound on
all spans. -/
theorem chain_cons_now {h : List HistorySpan} {b now : Int}
    (hbound : ∀ sp ∈ h, sp.played_at < b) (hb : b ≤ now)
    (hchain : List.Chain' (· > ·) (h.map (·.played_at))) :
    List.Chain' (· > ·) (now :: h.map (·.played_at)) := by
  rw [List.chain'_cons']
  refine ⟨?_, hchain⟩
  intro y hy
  rw [List.head?_map] at hy
  cases hh : h.head? with
  | none => rw [hh] at hy; simp at hy
  | some sp =>
    rw [hh, Option.map_some', Option.mem_def, Option.some_inj] at hy
    have : sp ∈ h := List.mem_of_mem_head? hh
    have := hbound sp this
    omega

theorem upsert_playback_state_inv {s : RoomState} {b : Int}
    (hInv : PlaybackInv s b) {now : Int} (hb : b ≤ now) (tid : Nat)
    (sts : Option Int) (off : Int) (p : Bool) (l : Option Nat) :
    PlaybackInv (upsert_playback_state s tid sts off p l now) (now + 1) := by
  obtain ⟨hchain, hbound, hopen⟩ := hInv
  rcases hpb : s.playback with _ | st
  · -- no previous playback state: by the invariant no span is open
    have hnoopen : ∀ sp ∈ s.history, sp.ended_at ≠ none := by
      intro sp hsp hcon
      have := (hopen sp hsp hcon).2
      rw [hpb, Option.map_none'] at this
      exact Option.noConfusion this
    refine ⟨?_, ?_, ?_⟩
    · rw [upsert_history_of_none hpb, create_history, List.map_cons]
      exact chain_cons_now hbound hb hchain
    · rw [upsert_history_of_none hpb, create_history]
      intro sp hsp
      rcases List.mem_cons.mp hsp with h1 | h2
      · rw [h1]; dsimp only; omega
      · have := hbound sp h2; omega
    · rw [upsert_history_of_none hpb, create_history]
      intro sp hsp hop
      rcases List.mem_cons.mp hsp with h1 | h2
      · subst h1
        exact ⟨rfl, by rw [upsert_track_id]⟩
      · exact absurd hop (hnoopen sp h2)
  · by_cases htid : st.track_id = tid
    · -- same track: history untouched
      refine ⟨?_, ?_, ?_⟩
      · rw [upsert_history_same_track hpb htid]; exact hchain
      · rw [upsert_history_same_track hpb htid]
        intro sp hsp; have := hbound sp hsp; omega
      · rw [upsert_history_same_track hpb htid]
        intro sp hsp hop
        obtain ⟨hh, ht⟩ := hopen sp hsp hop
        refine ⟨hh, ?_⟩
        rw [upsert_track_id]
        rw [hpb, Option.map_some'] at ht
        rw [← htid]; exact ht
    · -- track change: previous track's open span gets closed, new span opened
      have hclosed : ∀ sp' ∈ close_active_history s.history st.track_id now,
          sp'.ended_at ≠ none :=
        close_active_history_no_open ⟨hchain, hbound, hopen⟩ hpb now
      refine ⟨?_, ?_, ?_⟩
      · rw [upsert_history_changed hpb htid, create_history, List.map_cons,
          close_active_history_map_played]
        exact chain_cons_now hbound hb hchain
      · rw [upsert_history_changed hpb htid, create_history]
        intro sp hsp
        rcases List.mem_cons.mp hsp with h1 | h2
        · rw [h1]; dsimp only; omega
        · rcases close_active_history_mem h2 with h3 | ⟨sp0, h4, -, heq⟩
          · have := hbound sp h3; omega
          · have := hbound sp0 h4
            rw [heq]; dsimp only; omega
      · rw [upsert_history_changed hpb htid, create_history]
        intro sp hsp hop
        rcases List.mem_cons.mp hsp with h1 | h2
        · subst h1
          exact ⟨rfl, by rw [upsert_track_id]⟩
        · exact absurd hop (hclosed sp h2)

/-- Writing only the `listeners` field of the playback state preserves the
invariant. -/
theorem inv_set_listeners {s : RoomState} {b : Int} {st : PlaybackState}
    (hInv : PlaybackInv s b) (hpb : s.playback = some st) (n : Nat) :
    PlaybackInv { s with playback := some { st with listeners := n } } b := by
  obtain ⟨h1, h2, h3⟩ := hInv
  refine ⟨h1, h2, fun sp hsp hop => ?_⟩
  obtain ⟨hh, ht⟩ := h3 sp hsp hop
  refine ⟨hh, ?_⟩
  rw [hpb, Option.map_some'] at ht
  rw [Option.map_some']
  exact ht

theorem resume_room_playback_inv {s : RoomState} {b : Int}
    (hInv : PlaybackInv s b) {now : Int} (hb : b ≤ now) (l : Option Nat) :
    PlaybackInv (resume_room_playback s l now) (now + 1) := by
  rcases hpb : s.playback with _ | st
  · rw [resume_room_playback, hpb]
    exact hInv.mono (by omega)
  · rw [resume_room_playback, hpb]
    cases l with
    | none =>
      dsimp only
      by_cases hps : st.is_paused = false
      · rw [if_pos hps]
        exact (inv_set_listeners hInv hpb st.listeners).mono (by omega)
      · rw [if_neg hps]
        exact upsert_playback_state_inv (inv_set_listeners hInv hpb st.listeners)
          hb _ _ _ _ _
    | some lv =>
      dsimp only
      by_cases hne : lv ≠ st.listeners
      · rw [if_pos hne]
        by_cases hps : ({ st with listeners := lv } : PlaybackState).is_paused = false
        · rw [if_pos hps]
          exact (inv_set_listeners hInv hpb lv).mono (by omega)
        · rw [if_neg hps]
          exact upsert_playback_state_inv (inv_set_listeners hInv hpb lv) hb _ _ _ _ _
      · rw [if_neg hne]
        by_cases hps : st.is_paused = false
        · rw [if_pos hps]
          exact (inv_set_listeners hInv hpb st.listeners).mono (by omega)
        · rw [if_neg hps]
          exact upsert_playback_state_inv (inv_set_listeners hInv hpb st.listeners)
            hb _ _ _ _ _

theorem pause_room_playback_inv {s : RoomState} {b : Int}
    (hInv : PlaybackInv s b) {now : Int} (hb : b ≤ now) (l : Option Nat) :
    PlaybackInv (pause_room_playback s l now) (now + 1) := by
  rcases hpb : s.playback with _ | st
  · rw [pause_room_playback, hpb]
    exact hInv.mono (by omega)
  · rw [pause_room_playback, hpb]
    dsimp only
    by_cases hps : st.is_paused
    · rw [if_pos hps]
      cases l with
      | none => exact hInv.mono (by omega)
      | some lv =>
        dsimp only
        by_cases hne : lv ≠ st.listeners
        · rw [if_pos hne]
          exact (inv_set_listeners hInv hpb lv).mono (by omega)
        · rw [if_neg hne]
          exact hInv.mono (by omega)
    · rw [if_neg hps]
      exact upsert_playback_state_inv hInv hb _ _ _ _ _

theorem stepOp_inv {s : RoomState} {b : Int} (hInv : PlaybackInv s b)
    {now : Int} (hb : b ≤ now) (op : Op) :
    PlaybackInv (stepOp s now op) (now + 1) := by
  cases op with
  | setTrack tid sts off p l => exact upsert_playback_state_inv hInv hb tid sts off p l
  | resume l => exact resume_room_playback_inv hInv hb l
  | pause l => exact pause_room_playback_inv hInv hb l

theorem run_inv : ∀ (ops : List (Int × Op)) (s : RoomState) (b : Int),
    PlaybackInv s b → (∀ p ∈ ops, b ≤ p.1) →
    List.Pairwise (· < ·) (ops.map Prod.fst) →
    ∃ b', PlaybackInv (run s ops) b' := by
  intro ops
  induction ops with
  | nil => exact fun s b h _ _ => ⟨b, h⟩
  | cons q rest ih =>
    intro s b hInv hall hpw
    obtain ⟨t, op⟩ := q
    have hbt : b ≤ t := hall (t, op) (List.mem_cons_self _ _)
    have hstep : PlaybackInv (stepOp s t op) (t + 1) := stepOp_inv hInv hbt op
    rw [List.map_cons] at hpw
    have hpw' := List.pairwise_cons.mp hpw
    refine ih (stepOp s t op) (t + 1) hstep ?_ hpw'.2
    intro r hr
    have : t < r.1 := hpw'.1 r.1 (List.mem_map_of_mem _ hr)
    omega

theorem PlaybackInv.openCount_le_one {s : RoomState} {b : Int}
    (hInv : PlaybackInv s b) : openCount s.history ≤ 1 := by
  obtain ⟨hchain, -, hopen⟩ := hInv
  unfold openCount
  cases hh : s.history with
  | nil => simp
  | cons a tl =>
    rw [hh] at hchain hopen
    have htl : tl.filter (fun sp => decide (sp.ended_at = none)) = [] := by
      rw [List.filter_eq_nil_iff]
      intro sp hsp hcon
      rw [decide_eq_true_eq] at hcon
      have := hopen sp (List.mem_cons_of_mem a hsp) hcon
      have heq : sp = a := by
        rw [List.head?_cons, Option.some_inj] at this
        exact this.1.symm
      subst heq
      rw [List.map_cons, List.chain'_iff_pairwise, List.pairwise_cons] at hchain
      exact absurd (hchain.1 _ (List.mem_map_of_mem _ hsp)) (lt_irrefl _)
    rw [List.filter_cons]
    by_cases ha : a.ended_at = none
    · rw [if_pos (by rw [decide_eq_true_eq]; exact ha), htl]
      simp
    · rw [if_neg (by rw [decide_eq_true_eq]; exact ha), htl]
      simp

/-- C1: for every room, after any finite sequence of SetTrack
(`upsert_playback_state`), Resume and Pause operations starting from a state
with no HistorySpans (and strictly increasing server clock), at most one
HistorySpan of that room has `ended_at = null`. -/
theorem c1_single_open_span (s : RoomState) (ops : List (Int × Op))
    (hhist : s.history = [])
    (htimes : List.Chain' (· < ·) (ops.map Prod.fst)) :
    openCount (run s ops).history ≤ 1 := by
  have hpw : List.Pairwise (· < ·) (ops.map Prod.fst) :=
    List.chain'_iff_pairwise.mp htimes
  have hInv0 : ∀ b, PlaybackInv s b := by
    intro b
    refine ⟨?_, ?_, ?_⟩ <;> rw [hhist] <;> simp
  cases ops with
  | nil =>
    simp only [run]
    rw [hhist]
    simp [openCount]
  | cons q rest =>
    have hall : ∀ r ∈ q :: rest, q.1 ≤ r.1 := by
      intro r hr
      rcases List.mem_cons.mp hr with h1 | h2
      · rw [h1]
      · rw [List.map_cons] at hpw
        exact ((List.pairwise_cons.mp hpw).1 r.1 (List.mem_map_of_mem _ h2)).le
    obtain ⟨b', hinv⟩ := run_inv (q :: rest) s q.1 (hInv0 q.1) hall hpw
    exact hinv.openCount_le_one

/-- A fresh room with no playback state, history, members, and a zeroed track
store; used as the concrete instance for the witnesses. -/
def freshRoom : RoomState :=
  { playback := none, history := [], live_track_id := none, members := [],
    tracks := fun _ => { playCount := 0, lastPlayedAt := none } }

/-- Witness for C1 at a concrete operation sequence. -/
theorem c1_single_open_span_witness :
    freshRoom.history = [] ∧
    List.Chain' (· < ·)
      (([((5 : Int), Op.setTrack 1 none 0 false none),
         ((7 : Int), Op.setTrack 2 none 0 false (some 3)),
         ((9 : Int), Op.pause none),
         ((11 : Int), Op.resume (some 1))].map Prod.fst)) ∧
    openCount (run freshRoom
      [((5 : Int), Op.setTrack 1 none 0 false none),
       ((7 : Int), Op.setTrack 2 none 0 false (some 3)),
       ((9 : Int), Op.pause none),
       ((11 : Int), Op.resume (some 1))]).history ≤ 1 :=
  ⟨rfl, by norm_num [List.chain'_cons], c1_single_open_span freshRoom _ rfl
    (by norm_num [List.chain'_cons])⟩

/-- Under the invariant, an open span is the head of the history, carries the
playback state's track, everything below it is closed, and
`_close_active_history` on the current track closes exactly it. -/
theorem open_head_decomp {s : RoomState} {b : Int} {st : PlaybackState}
    {sp : HistorySpan} (hInv : PlaybackInv s b) (hpb : s.playback = some st)
    (hsp : sp ∈ s.history) (hop : sp.ended_at = none) :
    ∃ rest, s.history = sp :: rest ∧ sp.track_id = st.track_id ∧
      (∀ x ∈ rest, x.ended_at ≠ none) ∧
      ∀ e : Int, close_active_history s.history st.track_id e =
        { sp with ended_at := some e } :: rest := by
  obtain ⟨hchain, -, hopen⟩ := hInv
  obtain ⟨hhead, htr⟩ := hopen sp hsp hop
  obtain ⟨rest, hh⟩ : ∃ rest, s.history = sp :: rest := by
    cases hhist : s.history with
    | nil => rw [hhist] at hhead; simp at hhead
    | cons a l =>
      rw [hhist] at hhead
      exact ⟨l, by rw [List.head?_cons, Option.some_inj] at hhead; rw [hhead]⟩
  have ht : sp.track_id = st.track_id := by
    rw [hpb, Option.map_some'] at htr
    exact (Option.some_inj.mp htr).symm
  have hlt : ∀ x ∈ rest, x.played_at < sp.played_at := by
    rw [hh, List.map_cons, List.chain'_iff_pairwise, List.pairwise_cons] at hchain
    intro x hx
    exact hchain.1 _ (List.mem_map_of_mem _ hx)
  refine ⟨rest, hh, ht, ?_, ?_⟩
  · intro x hx hcon
    have hx' := hopen x (by rw [hh]; exact List.mem_cons_of_mem _ hx) hcon
    have heq : x = sp := by
      rw [hh, List.head?_cons, Option.some_inj] at hx'
      exact hx'.1.symm
    exact absurd (hlt sp (heq ▸ hx)) (lt_irrefl _)
  · intro e
    have hmax : maxPlayedAt s.history st.track_id = some sp.played_at := by
      rw [hh]; exact maxPlayedAt_head ht hlt
    simp only [close_active_history, hmax]
    rw [hh]
    exact closeFirstAt_head_open ht hop

/-- C2: a SetTrack from current track A (with its open span) to a different
track B at time `now` closes A's open span at `now`, opens exactly one new
open span for B with `played_at = now`, increments B's `play_count` by one and
sets B's `last_played_at = now`. -/
theorem c2_track_change_bookkeeping {s : RoomState} {b : Int}
    {st : PlaybackState} {spA : HistorySpan}
    (hInv : PlaybackInv s b) (hpb : s.playback = some st)
    (hspA : spA ∈ s.history) (hopenA : spA.ended_at = none)
    {tidB : Nat} (hne : tidB ≠ st.track_id)
    {now : Int} (sts : Option Int) (off : Int) (p : Bool)
    (l : Option Nat) :
    ({ spA with ended_at := some now } ∈
        (upsert_playback_state s tidB sts off p l now).history) ∧
    (upsert_playback_state s tidB sts off p l now).history.head? =
      some { track_id := tidB, played_at := now, ended_at := none } ∧
    openCount (upsert_playback_state s tidB sts off p l now).history = 1 ∧
    ((upsert_playback_state s tidB sts off p l now).tracks tidB).playCount =
      (s.tracks tidB).playCount + 1 ∧
    ((upsert_playback_state s tidB sts off p l now).tracks tidB).lastPlayedAt =
      some now := by
  obtain ⟨rest, hh, htr, hrest, hclose⟩ := open_head_decomp hInv hpb hspA hopenA
  have hhist : (upsert_playback_state s tidB sts off p l now).history =
      { track_id := tidB, played_at := now, ended_at := none } ::
        { spA with ended_at := some now } :: rest := by
    rw [upsert_history_changed hpb (Ne.symm hne), hclose now, create_history]
  have htracks := upsert_tracks_changed hpb (Ne.symm hne) sts off p l now
  refine ⟨?_, ?_, ?_, ?_, ?_⟩
  · rw [hhist]
    exact List.mem_cons_of_mem _ (List.mem_cons_self _ _)
  · rw [hhist, List.head?_cons]
  · rw [hhist]
    unfold openCount
    rw [List.filter_cons, if_pos (by simp), List.filter_cons, if_neg (by simp),
      List.filter_eq_nil_iff.mpr (by intro x hx; simpa using hrest x hx)]
    rfl
  · rw [htracks]
    simp
  · rw [htracks]
    simp

/-- A room currently playing track 1 with one open span, for the witnesses. -/
def playingRoom : RoomState where
  playback := some
    { track_id := 1
      start_ts := 10
      anchor_server_ts := 10
      offset_ms := 0
      is_paused := false
      listeners := 2 }
  history := [{ track_id := 1, played_at := 10, ended_at := none }]
  live_track_id := some 1
  members := [{ user_id := 7, left_at := none }, { user_id := 8, left_at := none }]
  tracks := fun _ => { playCount := 1, lastPlayedAt := some 10 }

theorem playingRoom_inv : PlaybackInv playingRoom 11 := by
  refine ⟨?_, ?_, ?_⟩
  · simp [playingRoom]
  · intro sp hsp
    simp only [playingRoom, List.mem_singleton] at hsp
    rw [hsp]
    norm_num
  · intro sp hsp hop
    simp only [playingRoom, List.mem_singleton] at hsp
    subst hsp
    exact ⟨rfl, rfl⟩

theorem c2_track_change_bookkeeping_witness :
    PlaybackInv playingRoom 11 ∧
    playingRoom.playback = some
      { track_id := 1
        start_ts := 10
        anchor_server_ts := 10
        offset_ms := 0
        is_paused := false
        listeners := 2 } ∧
    ({ track_id := 1, played_at := 10, ended_at := none } : HistorySpan) ∈
      playingRoom.history ∧
    (({ track_id := 1, played_at := 10, ended_at := none } : HistorySpan).ended_at
       = none) ∧
    (2 : Nat) ≠ 1 ∧
    (({ track_id := 1, played_at := 10, ended_at := some 30 } : HistorySpan) ∈
        (upsert_playback_state playingRoom 2 none 0 false none 30).history ∧
      (upsert_playback_state playingRoom 2 none 0 false none 30).history.head? =
        some { track_id := 2, played_at := 30, ended_at := none } ∧
      openCount (upsert_playback_state playingRoom 2 none 0 false none 30).history = 1 ∧
      ((upsert_playback_state playingRoom 2 none 0 false none 30).tracks 2).playCount =
        (playingRoom.tracks 2).playCount + 1 ∧
      ((upsert_playback_state playingRoom 2 none 0 false none 30).tracks 2).lastPlayedAt =
        some 30) :=
  ⟨playingRoom_inv, rfl, List.mem_singleton.mpr rfl, rfl, by decide,
   @c2_track_change_bookkeeping playingRoom 11 _ _ playingRoom_inv rfl
     (List.mem_singleton.mpr rfl) rfl 2 (by decide) 30 none 0 false none⟩
/-- Whether an operation is a Resume or a Pause (no track change involved). -/
def Op.isResumeOrPause : Op → Bool
  | .setTrack _ _ _ _ _ => false
  | .resume _ => true
  | .pause _ => true

/-- `{ s with playback := some st }` is `s` itself when `s.playback = some st`. -/
theorem set_playback_eta {s : RoomState} {st : PlaybackState}
    (hpb : s.playback = some st) : { s with playback := some st } = s := by
  obtain ⟨pb, h, lt, m, tr⟩ := s
  simp only at hpb
  rw [hpb]

theorem resume_preserves_history (s : RoomState) (l : Option Nat) (now : Int) :
    (resume_room_playback s l now).history = s.history := by
  rcases hpb : s.playback with _ | st
  · rw [resume_room_playback, hpb]
  · rw [resume_room_playback, hpb]
    cases l with
    | none =>
      dsimp only
      by_cases hps : st.is_paused = false
      · rw [if_pos hps]
      · rw [if_neg hps]
        exact upsert_history_same_track rfl rfl _ _ _ _ _
    | some lv =>
      dsimp only
      by_cases hne : lv ≠ st.listeners
      · rw [if_pos hne]
        by_cases hps : ({ st with listeners := lv } : PlaybackState).is_paused = false
        · rw [if_pos hps]
        · rw [if_neg hps]
          exact upsert_history_same_track rfl rfl _ _ _ _ _
      · rw [if_neg hne]
        by_cases hps : st.is_paused = false
        · rw [if_pos hps]
        · rw [if_neg hps]
          exact upsert_history_same_track rfl rfl _ _ _ _ _

theorem pause_preserves_history (s : RoomState) (l : Option Nat) (now : Int) :
    (pause_room_playback s l now).history = s.history := by
  rcases hpb : s.playback with _ | st
  · rw [pause_room_playback, hpb]
  · rw [pause_room_playback, hpb]
    dsimp only
    by_cases hps : st.is_paused
    · rw [if_pos hps]
      cases l with
      | none => rfl
      | some lv =>
        dsimp only
        by_cases hne : lv ≠ st.listeners
        · rw [if_pos hne]
        · rw [if_neg hne]
    · rw [if_neg hps]
      exact upsert_history_same_track hpb rfl _ _ _ _ _

theorem resume_preserves_playCount (s : RoomState) (l : Option Nat) (now : Int)
    (i : Nat) :
    ((resume_room_playback s l now).tracks i).playCount = (s.tracks i).playCount := by
  rcases hpb : s.playback with _ | st
  · rw [resume_room_playback, hpb]
  · rw [resume_room_playback, hpb]
    have key : ∀ st1 : PlaybackState,
        ((upsert_playback_state { s with playback := some st1 } st1.track_id
            (some (if st1.offset_ms > 0 then now - st1.offset_ms else now))
            st1.offset_ms false (some (l.getD st1.listeners)) now).tracks i).playCount =
          (s.tracks i).playCount := by
      intro st1
      rw [upsert_tracks_same_track rfl rfl _ _ _ _ _]
      dsimp only
      by_cases hi : i = st1.track_id
      · rw [if_pos hi, hi]
      · rw [if_neg hi]
    cases l with
    | none =>
      dsimp only
      by_cases hps : st.is_paused = false
      · rw [if_pos hps]
      · rw [if_neg hps]
        exact key st
    | some lv =>
      dsimp only
      by_cases hne : lv ≠ st.listeners
      · rw [if_pos hne]
        by_cases hps : ({ st with listeners := lv } : PlaybackState).is_paused = false
        · rw [if_pos hps]
        · rw [if_neg hps]
          exact key { st with listeners := lv }
      · rw [if_neg hne]
        by_cases hps : st.is_paused = false
        · rw [if_pos hps]
        · rw [if_neg hps]
          exact key st

theorem pause_preserves_playCount (s : RoomState) (l : Option Nat) (now : Int)
    (i : Nat) :
    ((pause_room_playback s l now).tracks i).playCount = (s.tracks i).playCount := by
  rcases hpb : s.playback with _ | st
  · rw [pause_room_playback, hpb]
  · rw [pause_room_playback, hpb]
    dsimp only
    by_cases hps : st.is_paused
    · rw [if_pos hps]
      cases l with
      | none => rfl
      | some lv =>
        dsimp only
        by_cases hne : lv ≠ st.listeners
        · rw [if_pos hne]
        · rw [if_neg hne]
    · rw [if_neg hps]
      rw [upsert_tracks_same_track hpb rfl _ _ _ _ _]
      dsimp only
      by_cases hi : i = st.track_id
      · rw [if_pos hi, hi]
      · rw [if_neg hi]

/-- Resume on a room that is already playing only refreshes the listener
count. -/
theorem resume_playing_eq {s : RoomState} {st : PlaybackState}
    (hpb : s.playback = some st) (hps : st.is_paused = false)
    (l : Option Nat) (now : Int) :
    resume_room_playback s l now =
      { s with playback := some { st with listeners := l.getD st.listeners } } := by
  rw [resume_room_playback, hpb]
  cases l with
  | none =>
    dsimp only
    rw [if_pos (by rw [hps]), Option.getD]
  | some lv =>
    dsimp only
    by_cases hne : lv ≠ st.listeners
    · rw [if_pos hne, if_pos (by dsimp only; rw [hps])]
      rfl
    · rw [if_neg hne, if_pos (by rw [hps])]
      push_neg at hne
      rw [Option.getD, hne]

/-- Pause on a room that is already paused only refreshes the listener
count. -/
theorem pause_paused_eq {s : RoomState} {st : PlaybackState}
    (hpb : s.playback = some st) (hps : st.is_paused = true)
    (l : Option Nat) (now : Int) :
    pause_room_playback s l now =
      { s with playback := some { st with listeners := l.getD st.listeners } } := by
  rw [pause_room_playback, hpb]
  dsimp only
  rw [if_pos (by rw [hps])]
  cases l with
  | none =>
    rw [Option.getD]
    exact (set_playback_eta hpb).symm
  | some lv =>
    dsimp only
    by_cases hne : lv ≠ st.listeners
    · rw [if_pos hne]
      rfl
    · rw [if_neg hne]
      push_neg at hne
      rw [Option.getD, hne]
      exact (set_playback_eta hpb).symm

/-- Pausing a playing room: the resulting playback row. -/
theorem pause_playing_playback {s : RoomState} {st : PlaybackState}
    (hpb : s.playback = some st) (hps : st.is_paused = false)
    (l : Option Nat) (now : Int) :
    (pause_room_playback s l now).playback = some
      { st with
        offset_ms := st.offset_ms + max (now - st.anchor_server_ts) 0,
        is_paused := true,
        anchor_server_ts := now,
        listeners := l.getD st.listeners } := by
  rw [pause_room_playback, hpb]
  dsimp only
  rw [if_neg (by rw [hps]; exact Bool.false_ne_true)]
  rw [upsert_playback_of_some hpb]
  rfl

/-- C3: any number of Resume/Pause calls without a track change never creates
or closes a HistorySpan and never changes any track's `play_count`; moreover
Resume on a playing room and Pause on a paused room change nothing but the
(optional) listener count. -/
theorem c3_same_track_idempotence :
    (∀ (s : RoomState) (ops : List (Int × Op)),
      (∀ q ∈ ops, (Prod.snd q).isResumeOrPause = true) →
      (run s ops).history = s.history ∧
      ∀ i, ((run s ops).tracks i).playCount = (s.tracks i).playCount) ∧
    (∀ (s : RoomState) (st : PlaybackState) (l : Option Nat) (now : Int),
      s.playback = some st → st.is_paused = false →
      resume_room_playback s l now =
        { s with playback := some { st with listeners := l.getD st.listeners } }) ∧
    (∀ (s : RoomState) (st : PlaybackState) (l : Option Nat) (now : Int),
      s.playback = some st → st.is_paused = true →
      pause_room_playback s l now =
        { s with playback := some { st with listeners := l.getD st.listeners } }) := by
  refine ⟨?_, ?_, ?_⟩
  · intro s ops hops
    induction ops generalizing s with
    | nil => exact ⟨rfl, fun _ => rfl⟩
    | cons q rest ih =>
      obtain ⟨t, op⟩ := q
      have hop : op.isResumeOrPause = true := hops (t, op) (List.mem_cons_self _ _)
      have hrest : ∀ q ∈ rest, (Prod.snd q).isResumeOrPause = true :=
        fun q hq => hops q (List.mem_cons_of_mem _ hq)
      obtain ⟨ih1, ih2⟩ := ih (stepOp s t op) hrest
      have hstep : (stepOp s t op).history = s.history ∧
          ∀ i, ((stepOp s t op).tracks i).playCount = (s.tracks i).playCount := by
        cases op with
        | setTrack _ _ _ _ _ => exact absurd hop (by simp [Op.isResumeOrPause])
        | resume l =>
          exact ⟨resume_preserves_history s l t, resume_preserves_playCount s l t⟩
        | pause l =>
          exact ⟨pause_preserves_history s l t, pause_preserves_playCount s l t⟩
      refine ⟨?_, ?_⟩
      · rw [run, ih1, hstep.1]
      · intro i
        rw [run, ih2 i, hstep.2 i]
  · intro s st l now hpb hps
    exact resume_playing_eq hpb hps l now
  · intro s st l now hpb hps
    exact pause_paused_eq hpb hps l now

/-- Witness for C3 on a concrete room and operation list. -/
theorem c3_same_track_idempotence_witness :
    (∀ q ∈ [((20 : Int), Op.resume (some 3)), ((25 : Int), Op.pause none),
            ((30 : Int), Op.resume none)],
      (Prod.snd q).isResumeOrPause = true) ∧
    playingRoom.playback = some
      { track_id := 1
        start_ts := 10
        anchor_server_ts := 10
        offset_ms := 0
        is_paused := false
        listeners := 2 } ∧
    (({ track_id := 1, start_ts := 10, anchor_server_ts := 10, offset_ms := 0,
        is_paused := false, listeners := 2 } : PlaybackState).is_paused = false) ∧
    ((run playingRoom [((20 : Int), Op.resume (some 3)), ((25 : Int), Op.pause none),
        ((30 : Int), Op.resume none)]).history = playingRoom.history ∧
      ∀ i, ((run playingRoom [((20 : Int), Op.resume (some 3)),
          ((25 : Int), Op.pause none), ((30 : Int), Op.resume none)]).tracks i).playCount =
        (playingRoom.tracks i).playCount) ∧
    resume_room_playback playingRoom (some 5) 40 =
      { playingRoom with playback := some { track_id := 1, start_ts := 10, anchor_server_ts := 10, offset_ms := 0, is_paused := false, listeners := 5 } } :=
  ⟨by decide, rfl, rfl,
   c3_same_track_idempotence.1 playingRoom _ (by decide),
   c3_same_track_idempotence.2.1 playingRoom _ (some 5) 40 rfl rfl⟩

/-- C4: pausing a playing room at time `now` freezes
`offset_ms = o + max(0, now - a)`, sets `is_paused`, re-anchors at `now`,
keeps the same track (and `start_ts`), leaves the history — hence the open
span — untouched, and when `now < a` the elapsed part clamps to 0. -/
theorem c4_pause_freezes_offset {s : RoomState} {st : PlaybackState}
    (hpb : s.playback = some st) (hps : st.is_paused = false)
    (l : Option Nat) (now : Int) :
    (pause_room_playback s l now).playback = some
      { st with
        offset_ms := st.offset_ms + max (now - st.anchor_server_ts) 0,
        is_paused := true,
        anchor_server_ts := now,
        listeners := l.getD st.listeners } ∧
    (pause_room_playback s l now).history = s.history ∧
    (∀ sp ∈ s.history, sp.ended_at = none →
      sp ∈ (pause_room_playback s l now).history) ∧
    (now < st.anchor_server_ts →
      (pause_room_playback s l now).playback = some
        { st with
          is_paused := true,
          anchor_server_ts := now,
          listeners := l.getD st.listeners }) := by
  have hmain := pause_playing_playback hpb hps l now
  refine ⟨hmain, pause_preserves_history s l now, ?_, ?_⟩
  · intro sp hsp _
    rw [pause_preserves_history s l now]
    exact hsp
  · intro hlt
    rw [hmain]
    have : max (now - st.anchor_server_ts) 0 = 0 := max_eq_right (by omega)
    rw [this, add_zero]

/-- Witness for C4: pause `playingRoom` (anchor 10, offset 0) at time 5010. -/
theorem c4_pause_freezes_offset_witness :
    playingRoom.playback = some
      { track_id := 1
        start_ts := 10
        anchor_server_ts := 10
        offset_ms := 0
        is_paused := false
        listeners := 2 } ∧
    (({ track_id := 1, start_ts := 10, anchor_server_ts := 10, offset_ms := 0,
        is_paused := false, listeners := 2 } : PlaybackState).is_paused = false) ∧
    ((pause_room_playback playingRoom none 5010).playback = some
      { track_id := 1
        start_ts := 10
        anchor_server_ts := 5010
        offset_ms := 0 + max (5010 - 10) 0
        is_paused := true
        listeners := 2 } ∧
    (pause_room_playback playingRoom none 5010).history = playingRoom.history ∧
    (∀ sp ∈ playingRoom.history, sp.ended_at = none →
      sp ∈ (pause_room_playback playingRoom none 5010).history) ∧
    ((5010 : Int) < 10 →
      (pause_room_playback playingRoom none 5010).playback = some
        { track_id := 1
          start_ts := 10
          anchor_server_ts := 5010
          offset_ms := 0
          is_paused := true
          listeners := 2 })) :=
  ⟨rfl, rfl, @c4_pause_freezes_offset playingRoom _ rfl rfl none 5010⟩

/-! ### C7: what `_close_active_history` does on corrupted histories -/

theorem maxPlayedAt_none {h : List HistorySpan} {t : Nat}
    (hv : maxPlayedAt h t = none) : ∀ x ∈ h, x.track_id ≠ t := by
  induction h with
  | nil => intro x hx; simp at hx
  | cons sp rest ih =>
    simp only [maxPlayedAt] at hv
    by_cases hsp : sp.track_id = t
    · rw [if_pos hsp] at hv; exact Option.noConfusion hv
    · rw [if_neg hsp] at hv
      intro x hx
      rcases List.mem_cons.mp hx with h1 | h2
      · rw [h1]; exact hsp
      · exact ih hv x h2

theorem maxPlayedAt_ge {h : List HistorySpan} {t : Nat} {v : Int}
    (hv : maxPlayedAt h t = some v) :
    ∀ x ∈ h, x.track_id = t → x.played_at ≤ v := by
  induction h generalizing v with
  | nil => intro x hx; simp at hx
  | cons sp rest ih =>
    simp only [maxPlayedAt] at hv
    by_cases hsp : sp.track_id = t
    · rw [if_pos hsp] at hv
      cases hm : maxPlayedAt rest t with
      | none =>
        rw [hm] at hv
        have hveq : sp.played_at = v := Option.some_inj.mp hv
        intro x hx hxt
        rcases List.mem_cons.mp hx with h1 | h2
        · rw [h1, hveq]
        · exact absurd hxt (maxPlayedAt_none hm x h2)
      | some w =>
        rw [hm] at hv
        have hveq : max sp.played_at w = v := Option.some_inj.mp hv
        intro x hx hxt
        rcases List.mem_cons.mp hx with h1 | h2
        · rw [h1, ← hveq]; exact le_max_left _ _
        · calc x.played_at ≤ w := ih hm x h2 hxt
            _ ≤ v := hveq ▸ le_max_right _ _
    · rw [if_neg hsp] at hv
      intro x hx hxt
      rcases List.mem_cons.mp hx with h1 | h2
      · exact absurd (h1 ▸ hxt) hsp
      · exact ih hv x h2 hxt

theorem closeFirstAt_decomp (h : List HistorySpan) (t : Nat) (m e : Int) :
    closeFirstAt h t m e = h ∨
    ∃ l1 sp l2, h = l1 ++ sp :: l2 ∧ sp.track_id = t ∧ sp.played_at = m ∧
      sp.ended_at = none ∧
      closeFirstAt h t m e = l1 ++ { sp with ended_at := some e } :: l2 := by
  induction h with
  | nil => exact Or.inl rfl
  | cons sp rest ih =>
    simp only [closeFirstAt]
    by_cases hc : sp.track_id = t ∧ sp.played_at = m
    · rw [if_pos hc]
      by_cases he : sp.ended_at = none
      · rw [if_pos he]
        exact Or.inr ⟨[], sp, rest, rfl, hc.1, hc.2, he, rfl⟩
      · rw [if_neg he]
        exact Or.inl rfl
    · rw [if_neg hc]
      rcases ih with h1 | ⟨l1, sp0, l2, hsplit, ht0, hm0, he0, heq⟩
      · rw [h1]
        exact Or.inl rfl
      · refine Or.inr ⟨sp :: l1, sp0, l2, ?_, ht0, hm0, he0, ?_⟩
        · rw [List.cons_append, hsplit]
        · rw [heq, List.cons_append]

/-- C7 (counterexample): a history with two open spans (tracks 1 and 2, the
newest belonging to track 1, the room's current track). -/
def corruptRoom : RoomState where
  playback := some
    { track_id := 1
      start_ts := 20
      anchor_server_ts := 20
      offset_ms := 0
      is_paused := false
      listeners := 1 }
  history := [{ track_id := 1, played_at := 20, ended_at := none },
              { track_id := 2, played_at := 10, ended_at := none }]
  live_track_id := some 1
  members := []
  tracks := fun _ => { playCount := 1, lastPlayedAt := some 10 }

/-- C7 fails on the code: with two open spans, a SetTrack transition to track
3 closes only track 1's span; track 2's stale open span — which is *not* the
most recent span — stays open, so two spans remain open instead of all but
the most recent being closed. -/
theorem c7_counterexample :
    openCount corruptRoom.history = 2 ∧
    (upsert_playback_state corruptRoom 3 none 0 false none 30).history =
      [{ track_id := 3, played_at := 30, ended_at := none },
       { track_id := 1, played_at := 20, ended_at := some 30 },
       { track_id := 2, played_at := 10, ended_at := none }] ∧
    openCount (upsert_playback_state corruptRoom 3 none 0 false none 30).history
      = 2 :=
  ⟨rfl, by decide, rfl⟩

/-- C7 (amended): on any history, the closing step of a playback transition
never fails and closes at most one span: the most recently started span of
the outgoing track, and only when that span is open; every other row —
including any other open span — is returned unchanged. -/
theorem c7_close_at_most_one (h : List HistorySpan) (t : Nat) (e : Int) :
    close_active_history h t e = h ∨
    ∃ l1 sp l2, h = l1 ++ sp :: l2 ∧ sp.track_id = t ∧ sp.ended_at = none ∧
      (∀ x ∈ h, x.track_id = t → x.played_at ≤ sp.played_at) ∧
      close_active_history h t e = l1 ++ { sp with ended_at := some e } :: l2 := by
  unfold close_active_history
  cases hmx : maxPlayedAt h t with
  | none => exact Or.inl rfl
  | some m =>
    rcases closeFirstAt_decomp h t m e with h1 | ⟨l1, sp, l2, hsplit, ht, hm, he, heq⟩
    · exact Or.inl h1
    · exact Or.inr ⟨l1, sp, l2, hsplit, ht, he, hm ▸ maxPlayedAt_ge hmx, heq⟩

/-! ### C9: membership changes and playback; C10: `live_track_id` agreement -/

theorem update_room_listener_count_some {s : RoomState} {st : PlaybackState}
    (hpb : s.playback = some st) :
    update_room_listener_count s =
      ({ s with playback := some { st with listeners :=
          (s.members.filter (fun m => m.left_at = none)).length } },
       (s.members.filter (fun m => m.left_at = none)).length) := by
  rw [update_room_listener_count, hpb]

/-- A paused room with two active listeners (paused through the public
SetPlaybackState with `is_paused = true`). -/
def pausedRoom : RoomState where
  playback := some
    { track_id := 1
      start_ts := 10
      anchor_server_ts := 10
      offset_ms := 500
      is_paused := true
      listeners := 2 }
  history := [{ track_id := 1, played_at := 10, ended_at := none }]
  live_track_id := some 1
  members := [{ user_id := 7, left_at := none }, { user_id := 8, left_at := none }]
  tracks := fun _ => { playCount := 1, lastPlayedAt := some 10 }

/-- C9 fails on the code: a join taking the active listener count from 2 to 3
(positive on both sides) does not merely update the stored count — it resumes
a paused room, flipping `is_paused` and re-anchoring. -/
theorem c9_counterexample :
    (pausedRoom.members.filter (fun m => m.left_at = none)).length = 2 ∧
    ((join_room pausedRoom 9 40).members.filter
      (fun m => m.left_at = none)).length = 3 ∧
    pausedRoom.playback.map (·.is_paused) = some true ∧
    (join_room pausedRoom 9 40).playback.map (·.is_paused) = some false := by
  refine ⟨rfl, by decide, rfl, by decide⟩

/-- C9 (amended): for a room that is currently *playing*, any join — and any
leave that keeps the count positive — only rewrites the membership rows and
the stored `listeners`; `is_paused`, `offset_ms`, `anchor_server_ts`,
`start_ts`, `track_id` and the history spans are untouched. Pause is invoked
only on a leave whose recomputed count is 0. (Resume, however, is invoked on
every membership change with positive count, which is what resumes a paused
room even on an intermediate change — the counterexample above.) -/
theorem c9_membership_frame :
    (∀ (s : RoomState) (st : PlaybackState) (u : Nat) (now : Int),
      s.playback = some st → st.is_paused = false →
      join_room s u now =
        { s with
          members := joinMembers s.members u,
          playback := some { st with listeners :=
            ((joinMembers s.members u).filter (fun m => m.left_at = none)).length } }) ∧
    (∀ (s : RoomState) (st : PlaybackState) (u : Nat) (now : Int),
      s.playback = some st → st.is_paused = false →
      (s.members.find? (fun m => m.user_id = u)).isSome →
      ((leaveMembers s.members u now).filter (fun m => m.left_at = none)).length ≠ 0 →
      leave_room s u now = some
        { s with
          members := leaveMembers s.members u now,
          playback := some { st with listeners :=
            ((leaveMembers s.members u now).filter (fun m => m.left_at = none)).length } }) ∧
    (∀ (s : RoomState) (st : PlaybackState) (u : Nat) (now : Int),
      s.playback = some st → st.is_paused = false →
      (s.members.find? (fun m => m.user_id = u)).isSome →
      ((leaveMembers s.members u now).filter (fun m => m.left_at = none)).length = 0 →
      ∃ s', leave_room s u now = some s' ∧
        s'.playback.map (·.is_paused) = some true ∧ s'.history = s.history) := by
  refine ⟨?_, ?_, ?_⟩
  · intro s st u now hpb hps
    rw [join_room,
      update_room_listener_count_some
        (show ({ s with members := joinMembers s.members u } : RoomState).playback
          = some st from hpb)]
    dsimp only
    by_cases hcnt :
        ((joinMembers s.members u).filter (fun m => m.left_at = none)).length > 0
    · have hps' : ({ st with listeners :=
          ((joinMembers s.members u).filter (fun m => m.left_at = none)).length } :
            PlaybackState).is_paused = false := hps
      rw [if_pos hcnt, resume_playing_eq rfl hps']
      rfl
    · rw [if_neg hcnt]
  · intro s st u now hpb hps hfind hcnt
    rw [leave_room, if_pos hfind]
    dsimp only
    rw [update_room_listener_count_some
        (show ({ s with members := leaveMembers s.members u now } : RoomState).playback
          = some st from hpb)]
    dsimp only
    have hps' : ({ st with listeners :=
        ((leaveMembers s.members u now).filter (fun m => m.left_at = none)).length } :
          PlaybackState).is_paused = false := hps
    rw [if_neg hcnt, resume_playing_eq rfl hps']
    rfl
  · intro s st u now hpb hps hfind hcnt
    rw [leave_room, if_pos hfind]
    dsimp only
    rw [update_room_listener_count_some
        (show ({ s with members := leaveMembers s.members u now } : RoomState).playback
          = some st from hpb)]
    dsimp only
    rw [if_pos hcnt]
    have hps' : ({ st with listeners :=
        ((leaveMembers s.members u now).filter (fun m => m.left_at = none)).length } :
          PlaybackState).is_paused = false := hps
    refine ⟨_, rfl, ?_, ?_⟩
    · rw [pause_playing_playback rfl hps', Option.map_some']
    · exact pause_preserves_history _ _ _

/-- Witness for C9 (amended): user 9 joins `playingRoom` (2 -> 3 listeners);
only members and the stored count change. -/
theorem c9_membership_frame_witness :
    playingRoom.playback = some
      { track_id := 1
        start_ts := 10
        anchor_server_ts := 10
        offset_ms := 0
        is_paused := false
        listeners := 2 } ∧
    (({ track_id := 1, start_ts := 10, anchor_server_ts := 10, offset_ms := 0,
        is_paused := false, listeners := 2 } : PlaybackState).is_paused = false) ∧
    join_room playingRoom 9 40 =
      { playingRoom with
        members := joinMembers playingRoom.members 9,
        playback := some { track_id := 1, start_ts := 10, anchor_server_ts := 10, offset_ms := 0, is_paused := false, listeners := ((joinMembers playingRoom.members 9).filter (fun m => m.left_at = none)).length } } :=
  ⟨rfl, rfl, c9_membership_frame.1 playingRoom _ 9 40 rfl rfl⟩

/-- The scoring engine's notion of "current track" (`room.live_track_id`)
agrees with the playback state's `track_id`. -/
def LiveAgrees (s : RoomState) : Prop :=
  ∀ tid : Nat, s.playback.map (·.track_id) = some tid →
    s.live_track_id = some tid

theorem resume_preserves_live_and_track (s : RoomState) (l : Option Nat)
    (now : Int) :
    (resume_room_playback s l now).live_track_id = s.live_track_id ∧
    (resume_room_playback s l now).playback.map (·.track_id) =
      s.playback.map (·.track_id) := by
  rcases hpb : s.playback with _ | st
  · rw [resume_room_playback, hpb]
    exact ⟨rfl, by rw [hpb]⟩
  · rw [resume_room_playback, hpb]
    cases l with
    | none =>
      dsimp only
      by_cases hps : st.is_paused = false
      · rw [if_pos hps]
        exact ⟨rfl, rfl⟩
      · rw [if_neg hps]
        exact ⟨(upsert_frame _ _ _ _ _ _ _).1, by rw [upsert_track_id]; rfl⟩
    | some lv =>
      dsimp only
      by_cases hne : lv ≠ st.listeners
      · rw [if_pos hne]
        by_cases hps : ({ st with listeners := lv } : PlaybackState).is_paused = false
        · rw [if_pos hps]
          exact ⟨rfl, rfl⟩
        · rw [if_neg hps]
          exact ⟨(upsert_frame _ _ _ _ _ _ _).1, by rw [upsert_track_id]; rfl⟩
      · rw [if_neg hne]
        by_cases hps : st.is_paused = false
        · rw [if_pos hps]
          exact ⟨rfl, rfl⟩
        · rw [if_neg hps]
          exact ⟨(upsert_frame _ _ _ _ _ _ _).1, by rw [upsert_track_id]; rfl⟩

theorem pause_preserves_live_and_track (s : RoomState) (l : Option Nat)
    (now : Int) :
    (pause_room_playback s l now).live_track_id = s.live_track_id ∧
    (pause_room_playback s l now).playback.map (·.track_id) =
      s.playback.map (·.track_id) := by
  rcases hpb : s.playback with _ | st
  · rw [pause_room_playback, hpb]
    exact ⟨rfl, by rw [hpb]⟩
  · rw [pause_room_playback, hpb]
    dsimp only
    by_cases hps : st.is_paused
    · rw [if_pos hps]
      cases l with
      | none => exact ⟨rfl, by rw [hpb]⟩
      | some lv =>
        dsimp only
        by_cases hne : lv ≠ st.listeners
        · rw [if_pos hne]
          exact ⟨rfl, rfl⟩
        · rw [if_neg hne]
          exact ⟨rfl, by rw [hpb]⟩
    · rw [if_neg hps]
      exact ⟨(upsert_frame _ _ _ _ _ _ _).1, by rw [upsert_track_id]; rfl⟩

/-- C10: after a successful SetPlaybackState (`set_playback`),
`live_track_id = playback.track_id`; Resume and Pause preserve this
agreement, so the current track read by the scoring engine matches the
playback state once set through the public operation. -/
theorem c10_live_track_agreement :
    (∀ (s : RoomState) (tid : Nat) (sts : Option Int) (off : Int) (p : Bool)
        (l : Option Nat) (now : Int),
      LiveAgrees (set_playback s tid sts off p l now)) ∧
    (∀ (s : RoomState) (l : Option Nat) (now : Int),
      LiveAgrees s → LiveAgrees (resume_room_playback s l now)) ∧
    (∀ (s : RoomState) (l : Option Nat) (now : Int),
      LiveAgrees s → LiveAgrees (pause_room_playback s l now)) := by
  refine ⟨?_, ?_, ?_⟩
  · intro s tid sts off p l now tid' hmap
    have h1 : (set_playback s tid sts off p l now).playback.map (·.track_id) =
        some tid := upsert_track_id s tid sts off p l now
    rw [h1, Option.some_inj] at hmap
    show some tid = some tid'
    rw [hmap]
  · intro s l now hA tid hmap
    obtain ⟨hl, hm⟩ := resume_preserves_live_and_track s l now
    rw [hm] at hmap
    rw [hl]
    exact hA tid hmap
  · intro s l now hA tid hmap
    obtain ⟨hl, hm⟩ := pause_preserves_live_and_track s l now
    rw [hm] at hmap
    rw [hl]
    exact hA tid hmap

/-- Witness for C10 at concrete rooms. -/
theorem c10_live_track_agreement_witness :
    LiveAgrees playingRoom ∧
    (LiveAgrees (set_playback freshRoom 1 none 0 false none 5) ∧
     LiveAgrees (resume_room_playback playingRoom (some 3) 40) ∧
     LiveAgrees (pause_room_playback playingRoom none 40)) :=
  ⟨fun _ h => h,
   ⟨c10_live_track_agreement.1 freshRoom 1 none 0 false none 5,
    c10_live_track_agreement.2.1 playingRoom (some 3) 40 (fun _ h => h),
    c10_live_track_agreement.2.2 playingRoom none 40 (fun _ h => h)⟩⟩

/-! ### Recommendation scoring engine (services/recommendation.py)

Python floats are modelled as exact reals; `round(x, 4)` is decimal
round-half-to-even. -/

noncomputable section

/-- Round-half-to-even to an integer (the rounding Python's `round` applies
to the scaled value). -/
def rhe (x : ℝ) : ℤ :=
  if x - ⌊x⌋ < 1 / 2 then ⌊x⌋
  else if 1 / 2 < x - ⌊x⌋ then ⌊x⌋ + 1
  else if Even ⌊x⌋ then ⌊x⌋ else ⌊x⌋ + 1

/-- Python `round(x, 4)`. -/
def round4 (x : ℝ) : ℝ := (rhe (x * 10000) : ℝ) / 10000

/-- models.py `EntityKind`. -/
inductive EntityKind where
  | room | message | user | track | artist
  deriving DecidableEq, Repr

/-- models.py `ReactionType`. -/
inductive ReactionType where
  | like | laugh | fire | question
  deriving DecidableEq, Repr

/-- `Track` row fields read by the scoring engine. -/
structure ScoreTrack where
  id : Nat
  artist_id : Nat
  play_count : Nat
  last_played_at : Option Int

/-- `ChatMessage` row fields read by the scoring engine. -/
structure ChatMessage where
  id : Nat
  user_id : Nat
  created_at : Int

/-- `Reaction` row fields read by the scoring engine. -/
structure Reaction where
  message_id : Nat
  type : ReactionType

/-- `Embedding` row (unique per `(entity_type, entity_id)`). -/
structure Embedding where
  entity_type : EntityKind
  entity_id : Nat
  vector : List ℝ

/-- `Room` columns read by the scoring engine. -/
structure ScoreRoom where
  artist_id : Nat
  live_track_id : Option Nat
  updated_at : Int

/-- Weighted per-term breakdown (the `breakdown` dict of an item). -/
structure Breakdown where
  cvs : ℝ
  similarity : ℝ
  novelty : ℝ
  fatigue : ℝ
  queue_penalty : ℝ

/-- services/recommendation.py `RecommendationItem`. -/
structure RecommendationItem where
  track_id : Nat
  score : ℝ
  breakdown : Breakdown

/-- services/recommendation.py `RecommendationContext`. -/
structure RecommendationContext where
  cvs : ℝ
  window_minutes : Nat
  message_count : Nat
  user_count : Nat
  reaction_count : Nat
  generated_at : Int

/-- The database snapshot one `generate_room_recommendations` call reads
(this room's rows only; every source query is filtered by `room_id`). -/
structure ScoreDb where
  room : ScoreRoom
  messages : List ChatMessage
  reactions : List Reaction
  tracks : List ScoreTrack
  history : List HistorySpan
  queue : List Nat
  embeddings : List Embedding

def WINDOW_MINUTES : Nat := 20
def ALPHA : ℝ := 0.6
def BETA : ℝ := 0.25
def GAMMA : ℝ := 0.15
def LAMBDA : ℝ := 0.12
def W1 : ℝ := 0.35
def W2 : ℝ := 0.35
def W3 : ℝ := 0.2
def W4 : ℝ := 0.1

/-- `_compute_cvs` (services/recommendation.py lines 153-164). -/
def compute_cvs (message_count likes reactions participant_count : Nat)
    (delta_minutes : ℝ) : ℝ :=
  let numerator := ALPHA * message_count + BETA * likes + GAMMA * reactions
  let base := numerator / Real.sqrt participant_count
  let decay := Real.exp (-LAMBDA * delta_minutes)
  round4 (base * decay)

/-- `_get_track_embedding` (lines 167-176): `None` for a falsy id, else the
unique TRACK-embedding's vector, if any. -/
def get_track_embedding (db : ScoreDb) (track_id : Option Nat) :
    Option (List ℝ) :=
  match track_id with
  | none => none
  | some tid =>
    (db.embeddings.find?
      (fun e => e.entity_type = EntityKind.track ∧ e.entity_id = tid)).map
      (·.vector)

/-- `_cosine_similarity` (lines 179-187). `not a` is true for both `None` and
the empty list. -/
def cosine_similarity (a b : Option (List ℝ)) : ℝ :=
  match a, b with
  | some x, some y =>
    if x = [] ∨ y = [] ∨ x.length ≠ y.length then 0
    else
      let dot := ((x.zip y).map (fun p => p.1 * p.2)).sum
      let norm_a := Real.sqrt ((x.map (fun v => v * v)).sum)
      let norm_b := Real.sqrt ((y.map (fun v => v * v)).sum)
      if norm_a = 0 ∨ norm_b = 0 then 0 else dot / (norm_a * norm_b)
  | _, _ => 0

/-- `_novelty_score` (lines 190-196); timestamps in ms, so
`total_seconds() / 60` is division by 60000. -/
def novelty_score (track : ScoreTrack) (now : Int) : ℝ :=
  let base : ℝ := 1 / (1 + (track.play_count : ℝ))
  match track.last_played_at with
  | some last =>
    let minutes_since : ℝ := ((now - last : ℤ) : ℝ) / 60000
    let boost := min (minutes_since / 120) 1
    round4 (base + 0.2 * boost)
  | none => round4 (base + 0.2)

/-- `_fatigue_penalty` (lines 199-203). -/
def fatigue_penalty (track : ScoreTrack) (recent_track_ids : List Nat) : ℝ :=
  if track.id ∈ recent_track_ids then
    round4 (max 0 (1 - (recent_track_ids.indexOf track.id : ℝ) / 5))
  else 0

/-- `generate_room_recommendations` (lines 43-150) at server time `now`. -/
def generate_room_recommendations (db : ScoreDb) (limit : Nat)
    (include_recent : Bool) (now : Int) :
    List RecommendationItem × RecommendationContext :=
  let window_start := now - 60000 * WINDOW_MINUTES
  let messages := db.messages.filter (fun m => window_start ≤ m.created_at)
  let message_count := messages.length
  let user_count :=
    -- `len({m.user_id for m in messages}) or 1`
    let u := (messages.map (·.user_id)).dedup.length
    if u = 0 then 1 else u
  let reaction_count := (db.reactions.filter (fun r =>
    db.messages.any (fun m => m.id = r.message_id ∧ window_start ≤ m.created_at))).length
  let likes_count := (db.reactions.filter (fun r =>
    r.type = ReactionType.like ∧
    db.messages.any (fun m => m.id = r.message_id ∧ window_start ≤ m.created_at))).length
  -- `max((m.created_at for m in messages), default=room.updated_at)`; the
  -- `if last_message_ts else 60.0` fallback of the source is dead code since
  -- `updated_at` is non-null and datetimes are always truthy
  let last_message_ts := ((messages.map (·.created_at)).max?).getD db.room.updated_at
  let delta_minutes : ℝ := max (((now - last_message_ts : ℤ) : ℝ) / 1000) 0 / 60
  let cvs := compute_cvs message_count likes_count reaction_count user_count delta_minutes
  let current_embedding := get_track_embedding db db.room.live_track_id
  let recent_track_ids :=
    ((db.history.mergeSort (fun a b => decide (b.played_at ≤ a.played_at))).take 25).map
      (·.track_id)
  let recent_seen := recent_track_ids.take 5
  let candidates := db.tracks.filter (fun t => t.artist_id = db.room.artist_id)
  let queue_track_ids := db.queue
  let items := candidates.filterMap (fun track =>
    if ¬include_recent ∧ track.id ∈ recent_seen then none
    else if some track.id = db.room.live_track_id then none
    else
      let embedding := get_track_embedding db (some track.id)
      -- `if embedding else 0.0`: falsy for both None and []
      let cosine := match embedding with
        | some v => if v ≠ [] then cosine_similarity current_embedding (some v) else 0
        | none => 0
      let novelty := novelty_score track now
      let fatigue := fatigue_penalty track recent_track_ids
      let queue_penalty : ℝ := if track.id ∈ queue_track_ids then 0.1 else 0
      let score := W1 * cvs + W2 * cosine + W3 * novelty - W4 * (fatigue + queue_penalty)
      some { track_id := track.id
             score := score
             breakdown :=
               { cvs := round4 (W1 * cvs)
                 similarity := round4 (W2 * cosine)
                 novelty := round4 (W3 * novelty)
                 fatigue := round4 (W4 * fatigue)
                 queue_penalty := round4 (W4 * queue_penalty) } })
  let out := (items.mergeSort (fun a b => decide (b.score ≤ a.score))).take limit
  (out,
   { cvs := cvs
     window_minutes := WINDOW_MINUTES
     message_count := message_count
     user_count := user_count
     reaction_count := reaction_count
     generated_at := now })

end

theorem rhe_of_lt {x : ℝ} {n : ℤ} (h1 : (n : ℝ) ≤ x) (h2 : x < n + 1 / 2) :
    rhe x = n := by
  have hf : ⌊x⌋ = n := Int.floor_eq_iff.mpr ⟨h1, by linarith⟩
  rw [rhe, hf, if_pos (by linarith)]

theorem rhe_of_gt {x : ℝ} {n : ℤ} (h1 : (n : ℝ) + 1 / 2 < x) (h2 : x < n + 1) :
    rhe x = n + 1 := by
  have hf : ⌊x⌋ = n := Int.floor_eq_iff.mpr ⟨by linarith, h2⟩
  rw [rhe, hf, if_neg (by linarith), if_pos (by linarith)]

theorem rhe_intCast (n : ℤ) : rhe (n : ℝ) = n :=
  rhe_of_lt le_rfl (by linarith)

theorem round4_zero : round4 0 = 0 := by
  rw [round4, zero_mul]
  rw [show (0 : ℝ) = ((0 : ℤ) : ℝ) by norm_num, rhe_intCast]
  norm_num

/-- `round4` is the identity on reals that are integer multiples of 1/10000. -/
theorem round4_eq_self {x : ℝ} {n : ℤ} (h : x * 10000 = (n : ℝ)) :
    round4 x = x := by
  rw [round4, h, rhe_intCast]
  field_simp at h ⊢
  linarith

theorem cosine_similarity_none_left (b : Option (List ℝ)) :
    cosine_similarity none b = 0 := by
  cases b <;> rfl

theorem cosine_similarity_none_right (a : Option (List ℝ)) :
    cosine_similarity a none = 0 := by
  cases a <;> rfl

theorem cosine_similarity_length_ne {x y : List ℝ} (h : x.length ≠ y.length) :
    cosine_similarity (some x) (some y) = 0 := by
  simp only [cosine_similarity]
  rw [if_pos (Or.inr (Or.inr h))]

theorem cosine_similarity_zero_norm {x y : List ℝ}
    (h : Real.sqrt ((x.map (fun v => v * v)).sum) = 0 ∨
         Real.sqrt ((y.map (fun v => v * v)).sum) = 0) :
    cosine_similarity (some x) (some y) = 0 := by
  simp only [cosine_similarity]
  by_cases hg : x = [] ∨ y = [] ∨ x.length ≠ y.length
  · rw [if_pos hg]
  · rw [if_neg hg, if_pos h]

theorem cosine_similarity_some_nil (a : Option (List ℝ)) :
    cosine_similarity a (some []) = 0 := by
  cases a with
  | none => rfl
  | some x => simp [cosine_similarity]

/-- The `if embedding else 0.0` guard around `_cosine_similarity` in the
candidate loop computes exactly `_cosine_similarity` (which already returns 0
for `None` and for the empty vector). -/
theorem cosine_guard_eq (cur emb : Option (List ℝ)) :
    (match emb with
      | some v => if v ≠ [] then cosine_similarity cur (some v) else 0
      | none => (0 : ℝ)) = cosine_similarity cur emb := by
  cases emb with
  | none => cases cur <;> rfl
  | some v =>
    dsimp only
    by_cases hv : v = []
    · rw [if_neg (by simpa using hv)]
      subst hv
      cases cur with
      | none => rfl
      | some x =>
        simp [cosine_similarity]
    · rw [if_pos hv]

theorem novelty_score_of_none (t : ScoreTrack) (now : Int)
    (h : t.last_played_at = none) :
    novelty_score t now = round4 (1 / (1 + (t.play_count : ℝ)) + 0.2) := by
  rw [novelty_score, h]

theorem novelty_score_of_some (t : ScoreTrack) (now last : Int)
    (h : t.last_played_at = some last) :
    novelty_score t now =
      round4 (1 / (1 + (t.play_count : ℝ)) +
        0.2 * min ((((now - last : ℤ) : ℝ) / 60000) / 120) 1) := by
  rw [novelty_score, h]

theorem fatigue_penalty_not_mem (t : ScoreTrack) (recent : List Nat)
    (h : t.id ∉ recent) : fatigue_penalty t recent = 0 := by
  rw [fatigue_penalty, if_neg h]

/-- The 4-decimal rounding inside `_fatigue_penalty` is the identity: the
clamped value is always a multiple of 1/5. -/
theorem fatigue_penalty_mem (t : ScoreTrack) (recent : List Nat)
    (h : t.id ∈ recent) :
    fatigue_penalty t recent =
      max 0 (1 - (recent.indexOf t.id : ℝ) / 5) := by
  rw [fatigue_penalty, if_pos h]
  rcases le_or_lt (1 - (recent.indexOf t.id : ℝ) / 5) 0 with hle | hlt
  · rw [max_eq_left hle, round4_zero]
  · rw [max_eq_right hlt.le]
    exact round4_eq_self
      (show (1 - (recent.indexOf t.id : ℝ) / 5) * 10000 =
        (((10000 - 2000 * (recent.indexOf t.id : ℤ)) : ℤ) : ℝ) by push_cast; ring)

/-- C5 (amended): every ranked item's score is
`0.35*cvs + 0.35*similarity + 0.2*novelty - 0.1*(fatigue + queue_penalty)`:
similarity is the cosine similarity of the current and candidate vectors and
is 0 when either vector is missing, lengths mismatch, or either norm is zero
(the division is guarded); novelty is the claim's formula *rounded to 4
decimals*, `round4(1/(1+play_count) + 0.2*min(minutes_since/120, 1))`, or
`round4(1/(1+play_count) + 0.2)` if never played; fatigue is 0 off the 25
newest spans and otherwise `max(0, 1 - index/5)` at the 0-based newest-first
position; queue_penalty is 0.1 exactly for queued candidates. -/
theorem c5_score_formula :
    (∀ (db : ScoreDb) (limit : Nat) (ir : Bool) (now : Int),
      ∀ item ∈ (generate_room_recommendations db limit ir now).1,
      ∃ track, track ∈ db.tracks ∧ track.artist_id = db.room.artist_id ∧
        item.track_id = track.id ∧
        item.score =
          0.35 * (generate_room_recommendations db limit ir now).2.cvs +
          0.35 * cosine_similarity (get_track_embedding db db.room.live_track_id)
            (get_track_embedding db (some track.id)) +
          0.2 * novelty_score track now -
          0.1 * (fatigue_penalty track
              (((db.history.mergeSort
                  (fun a b => decide (b.played_at ≤ a.played_at))).take 25).map
                (·.track_id)) +
            (if track.id ∈ db.queue then (0.1 : ℝ) else 0))) ∧
    (∀ b, cosine_similarity none b = 0) ∧
    (∀ a, cosine_similarity a none = 0) ∧
    (∀ x y : List ℝ, x.length ≠ y.length →
      cosine_similarity (some x) (some y) = 0) ∧
    (∀ x y : List ℝ,
      Real.sqrt ((x.map (fun v => v * v)).sum) = 0 ∨
      Real.sqrt ((y.map (fun v => v * v)).sum) = 0 →
      cosine_similarity (some x) (some y) = 0) ∧
    (∀ (t : ScoreTrack) (now : Int), t.last_played_at = none →
      novelty_score t now = round4 (1 / (1 + (t.play_count : ℝ)) + 0.2)) ∧
    (∀ (t : ScoreTrack) (now last : Int), t.last_played_at = some last →
      novelty_score t now = round4 (1 / (1 + (t.play_count : ℝ)) +
        0.2 * min ((((now - last : ℤ) : ℝ) / 60000) / 120) 1)) ∧
    (∀ (t : ScoreTrack) (recent : List Nat), t.id ∉ recent →
      fatigue_penalty t recent = 0) ∧
    (∀ (t : ScoreTrack) (recent : List Nat), t.id ∈ recent →
      fatigue_penalty t recent = max 0 (1 - (recent.indexOf t.id : ℝ) / 5)) := by
  refine ⟨?_, cosine_similarity_none_left, cosine_similarity_none_right,
    fun x y => cosine_similarity_length_ne,
    fun x y => cosine_similarity_zero_norm,
    novelty_score_of_none, novelty_score_of_some,
    fatigue_penalty_not_mem, fatigue_penalty_mem⟩
  intro db limit ir now item hmem
  simp only [generate_room_recommendations] at hmem
  replace hmem := List.take_subset _ _ hmem
  replace hmem := (List.mergeSort_perm _ _).subset hmem
  obtain ⟨track, htrack, hf⟩ := List.mem_filterMap.mp hmem
  obtain ⟨htmem, hart⟩ := List.mem_filter.mp htrack
  rw [decide_eq_true_eq] at hart
  refine ⟨track, htmem, hart, ?_⟩
  by_cases g1 : ¬ir = true ∧ track.id ∈ List.take 5
      (List.map (fun x => x.track_id)
        (List.take 25 (db.history.mergeSort fun a b => decide (b.played_at ≤ a.played_at))))
  · rw [if_pos g1] at hf
    exact Option.noConfusion hf
  rw [if_neg g1] at hf
  by_cases g2 : some track.id = db.room.live_track_id
  · rw [if_pos g2] at hf
    exact Option.noConfusion hf
  rw [if_neg g2] at hf
  have heq := Option.some_inj.mp hf
  subst heq
  refine ⟨rfl, ?_⟩
  rcases hemb : get_track_embedding db (some track.id) with _ | v
  · dsimp only
    rw [cosine_similarity_none_right]
    simp only [generate_room_recommendations, W1, W2, W3, W4]
  · dsimp only
    by_cases hv : v = []
    · have hcond : ¬(v ≠ []) := not_not_intro hv
      rw [if_neg hcond]
      subst hv
      rw [cosine_similarity_some_nil]
      simp only [generate_room_recommendations, W1, W2, W3, W4]
    · rw [if_pos hv]
      simp only [generate_room_recommendations, W1, W2, W3, W4]

theorem compute_cvs_zero_msgs (delta : ℝ) : compute_cvs 0 0 0 1 delta = 0 := by
  rw [compute_cvs]
  norm_num [ALPHA, BETA, GAMMA, round4_zero]

/-- A quiet room (no messages/reactions/history/queue/embeddings) with a
single never-played candidate of play_count 2: the input refuting C5's
unrounded novelty formula. -/
def db0 : ScoreDb where
  room := { artist_id := 1, live_track_id := none, updated_at := 0 }
  messages := []
  reactions := []
  tracks := [{ id := 2, artist_id := 1, play_count := 2, last_played_at := none }]
  history := []
  queue := []
  embeddings := []

/-- Same room with the candidate never played and play_count 0 (novelty then
survives rounding intact); used by the witness. -/
def db1 : ScoreDb where
  room := { artist_id := 1, live_track_id := none, updated_at := 0 }
  messages := []
  reactions := []
  tracks := [{ id := 2, artist_id := 1, play_count := 0, last_played_at := none }]
  history := []
  queue := []
  embeddings := []

theorem novelty_db0 :
    novelty_score { id := 2, artist_id := 1, play_count := 2, last_played_at := none } 0
      = 5333 / 10000 := by
  rw [novelty_score]
  have h1 : (1 : ℝ) / (1 + ((2 : ℕ) : ℝ)) + 0.2 = 16000 / 3 / 10000 := by norm_num
  rw [h1, round4]
  have h2 : (16000 : ℝ) / 3 / 10000 * 10000 = 16000 / 3 := by norm_num
  rw [h2, rhe_of_lt (show ((5333 : ℤ) : ℝ) ≤ 16000 / 3 by norm_num)
    (show (16000 : ℝ) / 3 < (5333 : ℤ) + 1 / 2 by norm_num)]
  norm_num

theorem generate_db0_scores :
    (generate_room_recommendations db0 10 true 0).1.map (·.score) =
      [5333 / 50000] := by
  simp [generate_room_recommendations, db0, List.mergeSort, get_track_embedding,
    fatigue_penalty, compute_cvs_zero_msgs, W1, W2, W3, W4, WINDOW_MINUTES,
    novelty_db0]
  norm_num

theorem generate_db0_cvs :
    (generate_room_recommendations db0 10 true 0).2.cvs = 0 := by
  simp [generate_room_recommendations, db0, compute_cvs_zero_msgs]

/-- C5 fails on the code: on a quiet room with one never-played candidate of
`play_count = 2`, the code's score is `0.2 * round4(1/3 + 0.2) = 5333/50000`,
while the claim's unrounded novelty formula gives
`0.2 * (1/3 + 0.2) = 8/75 ≠ 5333/50000` — `_novelty_score` rounds to 4
decimals before weighting. -/
theorem c5_counterexample :
    (generate_room_recommendations db0 10 true 0).1.map (·.score) =
      [5333 / 50000] ∧
    0.35 * (generate_room_recommendations db0 10 true 0).2.cvs +
      0.35 * cosine_similarity (get_track_embedding db0 db0.room.live_track_id)
        (get_track_embedding db0 (some 2)) +
      0.2 * (1 / (1 + ((2 : ℕ) : ℝ)) + 0.2) -
      0.1 * (0 + 0) = 8 / 75 ∧
    (5333 / 50000 : ℝ) ≠ 8 / 75 := by
  refine ⟨generate_db0_scores, ?_, by norm_num⟩
  rw [generate_db0_cvs]
  have h1 : get_track_embedding db0 db0.room.live_track_id = none := rfl
  rw [h1, cosine_similarity_none_left]
  norm_num

theorem novelty_db1 :
    novelty_score { id := 2, artist_id := 1, play_count := 0, last_played_at := none } 0
      = 6 / 5 := by
  rw [novelty_score]
  have h1 : (1 : ℝ) / (1 + ((0 : ℕ) : ℝ)) + 0.2 = 6 / 5 := by norm_num
  rw [h1, round4_eq_self (show (6 : ℝ) / 5 * 10000 = ((12000 : ℤ) : ℝ) by norm_num)]

/-- The single item `generate_room_recommendations db1 10 true 0` returns. -/
noncomputable def item1 : RecommendationItem where
  track_id := 2
  score := 6 / 25
  breakdown :=
    { cvs := 0, similarity := 0, novelty := 6 / 25, fatigue := 0, queue_penalty := 0 }

theorem generate_db1_out :
    (generate_room_recommendations db1 10 true 0).1 = [item1] := by
  simp [item1, generate_room_recommendations, db1, List.mergeSort, get_track_embedding,
    fatigue_penalty, compute_cvs_zero_msgs, W1, W2, W3, W4, WINDOW_MINUTES,
    novelty_db1, round4_zero]
  constructor
  · norm_num
  · rw [show (0.2 : ℝ) * (6 / 5) = 6 / 25 by norm_num,
      round4_eq_self (show (6 : ℝ) / 25 * 10000 = ((2400 : ℤ) : ℝ) by norm_num)]

/-- Witness for C5 (amended) at `db1`'s single output item. -/
theorem c5_score_formula_witness :
    item1 ∈ (generate_room_recommendations db1 10 true 0).1 ∧
    (∃ track, track ∈ db1.tracks ∧ track.artist_id = db1.room.artist_id ∧
      item1.track_id = track.id ∧
      item1.score =
        0.35 * (generate_room_recommendations db1 10 true 0).2.cvs +
        0.35 * cosine_similarity (get_track_embedding db1 db1.room.live_track_id)
          (get_track_embedding db1 (some track.id)) +
        0.2 * novelty_score track 0 -
        0.1 * (fatigue_penalty track
            (((db1.history.mergeSort
                (fun a b => decide (b.played_at ≤ a.played_at))).take 25).map
              (·.track_id)) +
          (if track.id ∈ db1.queue then (0.1 : ℝ) else 0))) := by
  have hmem : item1 ∈ (generate_room_recommendations db1 10 true 0).1 := by
    rw [generate_db1_out]
    exact List.mem_singleton.mpr rfl
  exact ⟨hmem, c5_score_formula.1 db1 10 true 0 item1 hmem⟩

/-! ### C6: ordering, truncation and exclusion properties of the ranking -/

theorem nodup_pair_total {α : Type} {K : List α} (hK : K.Nodup) {a b : α}
    (ha : a ∈ K) (hb : b ∈ K) (hne : a ≠ b) :
    [a, b].Sublist K ∨ [b, a].Sublist K := by
  induction K with
  | nil => simp at ha
  | cons c tl ih =>
    rcases List.mem_cons.mp ha with hac | hatl
    · subst hac
      have hbtl : b ∈ tl := by
        rcases List.mem_cons.mp hb with h1 | h2
        · exact absurd h1.symm hne
        · exact h2
      exact Or.inl ((List.singleton_sublist.mpr hbtl).cons₂ a)
    · rcases List.mem_cons.mp hb with hbc | hbtl
      · subst hbc
        exact Or.inr ((List.singleton_sublist.mpr hatl).cons₂ b)
      · rcases ih (List.nodup_cons.mp hK).2 hatl hbtl with h | h
        · exact Or.inl (h.cons c)
        · exact Or.inr (h.cons c)

theorem pair_sublist_asymm {α : Type} {C : List α} (hC : C.Nodup) {u v : α}
    (h1 : [u, v].Sublist C) (h2 : [v, u].Sublist C) : False := by
  induction C with
  | nil => simp at h1
  | cons c tl ih =>
    obtain ⟨hc, htl⟩ := List.nodup_cons.mp hC
    cases h1 with
    | cons _ h1' =>
      cases h2 with
      | cons _ h2' => exact ih htl h1' h2'
      | cons₂ _ h2' =>
        exact hc (h1'.subset (List.mem_cons_of_mem u (List.mem_singleton.mpr rfl)))
    | cons₂ _ h1' =>
      cases h2 with
      | cons _ h2' =>
        exact hc (h2'.subset (List.mem_cons_of_mem v (List.mem_singleton.mpr rfl)))
      | cons₂ _ h2' =>
        exact hc (List.singleton_sublist.mp h2')

theorem pair_sublist_take {α : Type} :
    ∀ {l : List α} {n : Nat} {x y : α}, l.Nodup → [x, y].Sublist l →
      y ∈ l.take n → [x, y].Sublist (l.take n)
  | [], _, _, _, _, hs, _ => absurd (List.eq_nil_of_sublist_nil hs) (by simp)
  | a :: tl, 0, x, y, _, _, hy => by simp at hy
  | a :: tl, n + 1, x, y, hnd, hs, hy => by
    obtain ⟨hamem, htl⟩ := List.nodup_cons.mp hnd
    rw [List.take_succ_cons] at hy ⊢
    cases hs with
    | cons _ hs' =>
      rcases List.mem_cons.mp hy with h1 | h2
      · subst h1
        exact absurd
          (hs'.subset (List.mem_cons_of_mem x (List.mem_singleton.mpr rfl))) hamem
      · exact (pair_sublist_take htl hs' h2).cons a
    | cons₂ _ hs' =>
      have hytl : y ∈ tl := List.singleton_sublist.mp hs'
      rcases List.mem_cons.mp hy with h1 | h2
      · exact absurd (h1 ▸ hytl) hamem
      · exact (List.singleton_sublist.mpr h2).cons₂ a

/-- The candidate loop writes each passing candidate's id into its item, so
the item track-ids form a sublist of the candidate ids. -/
theorem filterMap_track_sublist
    (f : ScoreTrack → Option RecommendationItem)
    (hf : ∀ t x, f t = some x → x.track_id = t.id) :
    ∀ l : List ScoreTrack,
      ((l.filterMap f).map (·.track_id)).Sublist (l.map (·.id))
  | [] => List.Sublist.refl _
  | t :: l => by
    rw [List.filterMap_cons, List.map_cons]
    cases hft : f t with
    | none => exact (filterMap_track_sublist f hf l).cons t.id
    | some x =>
      rw [List.map_cons, hf t x hft]
      exact (filterMap_track_sublist f hf l).cons₂ t.id

/-- The candidate-loop output of `generate_room_recommendations` before
sorting and truncation (the `items` local of the source, in catalog
iteration order). -/
noncomputable def recItems (db : ScoreDb) (ir : Bool) (now : Int) :
    List RecommendationItem :=
  let window_start := now - 60000 * WINDOW_MINUTES
  let messages := db.messages.filter (fun m => window_start ≤ m.created_at)
  let message_count := messages.length
  let user_count :=
    let u := (messages.map (·.user_id)).dedup.length
    if u = 0 then 1 else u
  let reaction_count := (db.reactions.filter (fun r =>
    db.messages.any (fun m => m.id = r.message_id ∧ window_start ≤ m.created_at))).length
  let likes_count := (db.reactions.filter (fun r =>
    r.type = ReactionType.like ∧
    db.messages.any (fun m => m.id = r.message_id ∧ window_start ≤ m.created_at))).length
  let last_message_ts := ((messages.map (·.created_at)).max?).getD db.room.updated_at
  let delta_minutes : ℝ := max (((now - last_message_ts : ℤ) : ℝ) / 1000) 0 / 60
  let cvs := compute_cvs message_count likes_count reaction_count user_count delta_minutes
  let current_embedding := get_track_embedding db db.room.live_track_id
  let recent_track_ids :=
    ((db.history.mergeSort (fun a b => decide (b.played_at ≤ a.played_at))).take 25).map
      (·.track_id)
  let recent_seen := recent_track_ids.take 5
  let candidates := db.tracks.filter (fun t => t.artist_id = db.room.artist_id)
  let queue_track_ids := db.queue
  candidates.filterMap (fun track =>
    if ¬ir ∧ track.id ∈ recent_seen then none
    else if some track.id = db.room.live_track_id then none
    else
      let embedding := get_track_embedding db (some track.id)
      let cosine := match embedding with
        | some v => if v ≠ [] then cosine_similarity current_embedding (some v) else 0
        | none => 0
      let novelty := novelty_score track now
      let fatigue := fatigue_penalty track recent_track_ids
      let queue_penalty : ℝ := if track.id ∈ queue_track_ids then 0.1 else 0
      let score := W1 * cvs + W2 * cosine + W3 * novelty - W4 * (fatigue + queue_penalty)
      some { track_id := track.id
             score := score
             breakdown :=
               { cvs := round4 (W1 * cvs)
                 similarity := round4 (W2 * cosine)
                 novelty := round4 (W3 * novelty)
                 fatigue := round4 (W4 * fatigue)
                 queue_penalty := round4 (W4 * queue_penalty) } })

theorem generate_out_eq (db : ScoreDb) (limit : Nat) (ir : Bool) (now : Int) :
    (generate_room_recommendations db limit ir now).1 =
      ((recItems db ir now).mergeSort
        (fun a b => decide (b.score ≤ a.score))).take limit := rfl

theorem recItems_mem {db : ScoreDb} {ir : Bool} {now : Int}
    {item : RecommendationItem} (h : item ∈ recItems db ir now) :
    ∃ t, t ∈ db.tracks ∧ t.artist_id = db.room.artist_id ∧
      item.track_id = t.id ∧
      ¬(¬ir = true ∧ t.id ∈ (((db.history.mergeSort
          (fun a b => decide (b.played_at ≤ a.played_at))).take 25).map
            (·.track_id)).take 5) ∧
      some t.id ≠ db.room.live_track_id := by
  simp only [recItems] at h
  obtain ⟨track, htrack, hf⟩ := List.mem_filterMap.mp h
  obtain ⟨htmem, hart⟩ := List.mem_filter.mp htrack
  rw [decide_eq_true_eq] at hart
  by_cases g1 : ¬ir = true ∧ track.id ∈ (List.map (fun x => x.track_id)
      (List.take 25 (db.history.mergeSort fun a b =>
        decide (b.played_at ≤ a.played_at)))).take 5
  · rw [if_pos g1] at hf
    exact Option.noConfusion hf
  rw [if_neg g1] at hf
  by_cases g2 : some track.id = db.room.live_track_id
  · rw [if_pos g2] at hf
    exact Option.noConfusion hf
  rw [if_neg g2] at hf
  have heq := Option.some_inj.mp hf
  subst heq
  exact ⟨track, htmem, hart, rfl, by simpa using g1, g2⟩

theorem exists_mem_filterMap {α β : Type} {f : α → Option β} {l : List α}
    {P : β → Prop} {a : α} (ha : a ∈ l) (h : ∀ b, f a = some b → P b)
    (hne : f a ≠ none) : ∃ b ∈ l.filterMap f, P b := by
  rcases hfa : f a with _ | b
  · exact absurd hfa hne
  · exact ⟨b, List.mem_filterMap.mpr ⟨a, ha, hfa⟩, h b hfa⟩

theorem recItems_complete {db : ScoreDb} {now : Int} {t : ScoreTrack}
    (htmem : t ∈ db.tracks) (hart : t.artist_id = db.room.artist_id)
    (hlive : some t.id ≠ db.room.live_track_id) :
    ∃ item ∈ recItems db true now, item.track_id = t.id := by
  simp only [recItems]
  refine exists_mem_filterMap
    (List.mem_filter.mpr ⟨htmem, by rw [decide_eq_true_eq]; exact hart⟩) ?_ ?_
  · intro b hb
    rw [if_neg (by simp), if_neg hlive] at hb
    rw [← Option.some_inj.mp hb]
  · rw [if_neg (by simp), if_neg hlive]
    exact fun h => Option.noConfusion h

theorem recItems_track_sublist (db : ScoreDb) (ir : Bool) (now : Int) :
    ((recItems db ir now).map (·.track_id)).Sublist (db.tracks.map (·.id)) := by
  simp only [recItems]
  refine (filterMap_track_sublist _ ?_ _).trans ((List.filter_sublist _).map _)
  intro t x hfx
  by_cases g1 : ¬ir = true ∧ t.id ∈ (List.map (fun x => x.track_id)
      (List.take 25 (db.history.mergeSort fun a b =>
        decide (b.played_at ≤ a.played_at)))).take 5
  · rw [if_pos g1] at hfx
    exact Option.noConfusion hfx
  rw [if_neg g1] at hfx
  by_cases g2 : some t.id = db.room.live_track_id
  · rw [if_pos g2] at hfx
    exact Option.noConfusion hfx
  rw [if_neg g2] at hfx
  rw [← Option.some_inj.mp hfx]

/-- C6: the ranking is sorted in descending score order, equal-score items
keep catalog iteration order (unique track ids make this a deterministic
total order), the output has at most `limit` items, never contains the
room's live track, and excludes the 5 most recently played tracks exactly
when `include_recent = false` (with room in the limit, every other candidate
appears when it is `true`). -/
theorem c6_ranking_order (db : ScoreDb) (limit : Nat) (ir : Bool) (now : Int) :
    List.Pairwise (fun a b : RecommendationItem => b.score ≤ a.score)
      (generate_room_recommendations db limit ir now).1 ∧
    (generate_room_recommendations db limit ir now).1.length ≤ limit ∧
    (∀ item ∈ (generate_room_recommendations db limit ir now).1,
      some item.track_id ≠ db.room.live_track_id) ∧
    (ir = false → ∀ item ∈ (generate_room_recommendations db limit ir now).1,
      item.track_id ∉
        ((((db.history.mergeSort (fun a b => decide (b.played_at ≤ a.played_at))).take
            25).map (·.track_id)).take 5)) ∧
    (ir = true →
      (db.tracks.filter (fun t => t.artist_id = db.room.artist_id)).length ≤ limit →
      ∀ t ∈ db.tracks, t.artist_id = db.room.artist_id →
        some t.id ≠ db.room.live_track_id →
        ∃ item ∈ (generate_room_recommendations db limit ir now).1,
          item.track_id = t.id) ∧
    ((db.tracks.map (·.id)).Nodup →
      ∀ x y, x ∈ (generate_room_recommendations db limit ir now).1 →
        y ∈ (generate_room_recommendations db limit ir now).1 →
        x.score = y.score →
        [x.track_id, y.track_id].Sublist (db.tracks.map (·.id)) →
        [x, y].Sublist (generate_room_recommendations db limit ir now).1) := by
  have htrans : ∀ a b c : RecommendationItem,
      decide (b.score ≤ a.score) = true → decide (c.score ≤ b.score) = true →
      decide (c.score ≤ a.score) = true := by
    intro a b c h1 h2
    rw [decide_eq_true_eq] at h1 h2 ⊢
    exact le_trans h2 h1
  have htotal : ∀ a b : RecommendationItem,
      (decide (b.score ≤ a.score) || decide (a.score ≤ b.score)) = true := by
    intro a b
    rcases le_total b.score a.score with h | h <;> simp [h]
  refine ⟨?_, ?_, ?_, ?_, ?_, ?_⟩
  · rw [generate_out_eq]
    refine List.Pairwise.sublist (List.take_sublist _ _) ?_
    exact (List.sorted_mergeSort htrans htotal _).imp (fun h => of_decide_eq_true h)
  · rw [generate_out_eq]
    exact List.length_take_le _ _
  · intro item hmem
    rw [generate_out_eq] at hmem
    replace hmem := (List.mergeSort_perm _ _).subset (List.take_subset _ _ hmem)
    obtain ⟨t, -, -, hid, -, hlive⟩ := recItems_mem hmem
    rw [hid]
    exact hlive
  · intro hir item hmem
    rw [generate_out_eq] at hmem
    replace hmem := (List.mergeSort_perm _ _).subset (List.take_subset _ _ hmem)
    obtain ⟨t, -, -, hid, hseen, -⟩ := recItems_mem hmem
    subst hir
    rw [hid]
    intro hc
    exact hseen ⟨by simp, hc⟩
  · intro hir hlen t htmem hart hlive
    subst hir
    obtain ⟨item, hmem, hid⟩ := recItems_complete htmem hart hlive
    refine ⟨item, ?_, hid⟩
    rw [generate_out_eq]
    have hlen2 : ((recItems db true now).mergeSort
        (fun a b => decide (b.score ≤ a.score))).length ≤ limit := by
      rw [(List.mergeSort_perm _ _).length_eq]
      refine le_trans ?_ hlen
      calc (recItems db true now).length
          ≤ (db.tracks.filter (fun t => decide (t.artist_id = db.room.artist_id))).length := by
            simp only [recItems]
            exact List.length_filterMap_le _ _
        _ ≤ _ := le_of_eq rfl
    rw [List.take_of_length_le hlen2]
    exact ((List.mergeSort_perm _ _).symm).subset hmem
  · intro hnd x y hx hy hsc hpair
    rw [generate_out_eq] at hx hy ⊢
    have hxs := (List.mergeSort_perm _ _).subset (List.take_subset _ _ hx)
    have hys := (List.mergeSort_perm _ _).subset (List.take_subset _ _ hy)
    have hK := recItems_track_sublist db ir now
    have hKnd : ((recItems db ir now).map (·.track_id)).Nodup := hnd.sublist hK
    have hind : (recItems db ir now).Nodup := hKnd.of_map
    have htne : x.track_id ≠ y.track_id := by
      intro he
      exact pair_sublist_asymm hnd (he ▸ hpair) (he ▸ hpair)
    have hne : x ≠ y := fun he => htne (by rw [he])
    rcases nodup_pair_total hind hxs hys hne with hxy | hyx
    · have hsorted := List.pair_sublist_mergeSort htrans htotal
        (by rw [decide_eq_true_eq, hsc]) hxy
      have hsortnd : ((recItems db ir now).mergeSort
          (fun a b => decide (b.score ≤ a.score))).Nodup :=
        ((List.mergeSort_perm _ _).nodup_iff).mpr hind
      exact pair_sublist_take hsortnd hsorted hy
    · exfalso
      have : [y.track_id, x.track_id].Sublist (db.tracks.map (·.id)) := by
        have h1 := (hyx.map (·.track_id)).trans hK
        simpa using h1
      exact pair_sublist_asymm hnd hpair this

/-- Witness for C6 at a concrete snapshot. -/
theorem c6_ranking_order_witness :
    List.Pairwise (fun a b : RecommendationItem => b.score ≤ a.score)
      (generate_room_recommendations db1 10 true 0).1 ∧
    (generate_room_recommendations db1 10 true 0).1.length ≤ 10 ∧
    (∀ item ∈ (generate_room_recommendations db1 10 true 0).1,
      some item.track_id ≠ db1.room.live_track_id) :=
  ⟨(c6_ranking_order db1 10 true 0).1, (c6_ranking_order db1 10 true 0).2.1,
   (c6_ranking_order db1 10 true 0).2.2.1⟩

/-! ### C8: AcceptRecommendation (routers/recommendations.py lines 71-108) -/

/-- `RecommendationEvent` row fields the accept endpoint was written to
touch: the `input_context` JSON dict is modelled by the two keys the handler
body would write (`accepted_source`, `accepted_at`). -/
structure RecommendationEvent where
  id : Nat
  room_id : Nat
  created_at : Int
  chosen_track_id : Option Nat
  accepted_source : Option String
  accepted_at : Option Int
  deriving DecidableEq, Repr

/-- The tables the accept endpoint reads (rooms/tracks by primary key
only). -/
structure RecDb where
  rooms : List Nat
  tracks : List Nat
  events : List RecommendationEvent
  deriving DecidableEq, Repr

/-- The `RecommendationAccept` request schema (schemas.py lines 254-256):
it declares only `track_id` and `source` — there is no `event_id` field. -/
structure RecommendationAccept where
  track_id : Nat
  source : String
  deriving DecidableEq, Repr

/-- How one `accept_recommendation` request ends. -/
inductive AcceptOutcome where
  | roomNotFound
      -- the 404 raised before the handler reads the payload
  | attributeError
      -- `payload.event_id` (recommendations.py line 85) on a pydantic-v2
      -- model with no `event_id` field raises `AttributeError` (HTTP 500)
  deriving DecidableEq, Repr

/-- `POST /rooms/{room_id}/recommendations/accept` = `accept_recommendation`
(routers/recommendations.py lines 75-108). After the room check the handler
evaluates `payload.event_id` (line 85), but `RecommendationAccept` declares
no such field and pydantic-v2 models raise `AttributeError` on undefined
attributes, so every request that passes the room check fails there: the
event-resolution and mutation code of lines 85-107 is unreachable and the
event store is returned unchanged in every case. -/
def accept_recommendation (db : RecDb) (room_id : Nat)
    (payload : RecommendationAccept) : AcceptOutcome × RecDb :=
  if room_id ∉ db.rooms then (.roomNotFound, db)
  else (.attributeError, db)

/-- A room with one recommendation event (id 7) and one known track (id 5). -/
def recDb1 : RecDb where
  rooms := [1]
  tracks := [5]
  events := [{ id := 7, room_id := 1, created_at := 0, chosen_track_id := none,
               accepted_source := none, accepted_at := none }]

/-- C8 (code bug): `AcceptRecommendation` can never behave as claimed. The
request schema has no `event_id` field, so once the room check passes the
handler's `payload.event_id` access raises `AttributeError` (HTTP 500) —
for every payload, on every room, known track or not — and no
`RecommendationEvent` is ever modified: `chosen_track_id` and
`accepted_source` are never attached to anything. -/
theorem c8_accept_always_errors :
    (∀ (db : RecDb) (room_id : Nat) (payload : RecommendationAccept),
      room_id ∈ db.rooms →
      accept_recommendation db room_id payload = (.attributeError, db)) ∧
    (∀ (db : RecDb) (room_id : Nat) (payload : RecommendationAccept),
      room_id ∉ db.rooms →
      accept_recommendation db room_id payload = (.roomNotFound, db)) ∧
    (∀ (db : RecDb) (room_id : Nat) (payload : RecommendationAccept),
      (accept_recommendation db room_id payload).2 = db ∧
      ∀ e ∈ (accept_recommendation db room_id payload).2.events,
        e ∈ db.events) := by
  refine ⟨?_, ?_, ?_⟩
  · intro db room_id payload h
    rw [accept_recommendation, if_neg (not_not_intro h)]
  · intro db room_id payload h
    rw [accept_recommendation, if_pos h]
  · intro db room_id payload
    have hdb : (accept_recommendation db room_id payload).2 = db := by
      rw [accept_recommendation]
      by_cases h : room_id ∉ db.rooms
      · rw [if_pos h]
      · rw [if_neg h]
    exact ⟨hdb, fun e he => hdb ▸ he⟩

/-- Witness for C8's failing input: accepting on existing room 1 of `recDb1`
(track 5 is known and event 7 exists, yet the request still crashes). -/
theorem c8_accept_always_errors_witness :
    (1 : Nat) ∈ recDb1.rooms ∧
    accept_recommendation recDb1 1 { track_id := 5, source := "manual" } =
      (.attributeError, recDb1) :=
  ⟨by decide,
   c8_accept_always_errors.1 recDb1 1 { track_id := 5, source := "manual" }
     (by decide)⟩

end Looproom
